import Mathlib

/-!
Verification development for the `python_fix_explainer` tree-diff engine and
runtime-trace comparison.

Part I embeds `src/python_fix_explainer/runtime_comparison.py`: the
`RuntimeComparison` construction (LCS-aligned runtime traces, value-match
metadata, the deviation cursor), its ordering (`__lt__` / `__eq__`) and the
battery-level aggregation `compare_comparisons`.

Part II embeds `edit_script.py`: the tree model (`ManipulableAst`, modelled
from the specification because the `manip_ast` module is not part of the
sources), the `Edit` record with `apply_edit`, and the edit-script generator
`generate_edit_script` with all of its phases.
-/

namespace PyFix

/-! ## Part I: runtime comparison -/

/-- Model of the external tracer's per-op record (`get_runtime_effects.TracedOp`):
the id of the executed bytecode op and the list of values it pushed.
Runtime values are modelled as strings. -/
structure TracedOp where
  op_id : String
  pushed_values : List String
deriving DecidableEq, Repr, Inhabited

/-- Model of the external tracer's result for one run
(`get_runtime_effects.run_test`): the op trace, the run outcome
(`"completed"`, an exception name, a timeout marker, ...) and the
pass/fail evaluation of the unit test. -/
structure TraceResult where
  ops_list : List TracedOp
  run_outcome : String
  eval_result : Bool
deriving DecidableEq, Repr

/-- Metadata about one executed op of one trace: whether (and onto which index)
it is mapped in the other trace's op sequence, and whether the pushed values
matched; translated from `RuntimeOpMappingData`. -/
structure RuntimeOpMappingData where
  is_mapped : Bool := false
  mapped_op_index : Int := -1
  value_matches : Bool := false
deriving DecidableEq, Repr, Inhabited

/-- The fields of `RuntimeComparison` that the ordering, the aggregation and
the alignment loop produce and consume. -/
structure RuntimeComparison where
  run_status : String
  run_completed : Bool
  test_passed : Bool
  total_match_size : Nat
  last_matching_val_source : Nat
  last_matching_val_dest : Nat
  source_runtime_mapping_to_dest : List RuntimeOpMappingData
  dest_runtime_mapping_to_source : List RuntimeOpMappingData
deriving DecidableEq, Repr

/-- Mutable state of the alignment loop in `RuntimeComparison.__init__`:
the two metadata arrays, the running match size and the two cursors of the
last op pair whose values matched. -/
structure AlignState where
  srcMap : List RuntimeOpMappingData
  dstMap : List RuntimeOpMappingData
  total_match_size : Nat
  last_matching_val_source : Nat
  last_matching_val_dest : Nat
deriving DecidableEq, Repr

/-- Value-match condition of the alignment loop: the source op at `s_i` pushed
a non-empty value list equal to the values pushed by the dest op at `d_i`. -/
def valueMatchAt (source_trace dest_trace : TraceResult) (s_i d_i : Nat) : Bool :=
  let source_vals := (source_trace.ops_list.getD s_i default).pushed_values
  let dest_vals := (dest_trace.ops_list.getD d_i default).pushed_values
  decide (0 < source_vals.length) && source_vals == dest_vals

/-- Body of the alignment loop of `RuntimeComparison.__init__` for one aligned
index pair `(s_i, d_i)` of an `equal` opcode block: record the mapping in both
directions, and when the pushed values match (non-empty and equal) set
`value_matches` on both sides and advance the last-matching-value cursors. -/
def applyAlignedPair (source_trace dest_trace : TraceResult) (st : AlignState)
    (p : Nat × Nat) : AlignState :=
  let s_i := p.1
  let d_i := p.2
  let matched := valueMatchAt source_trace dest_trace s_i d_i
  let sRec := st.srcMap.getD s_i default
  let sRec := { sRec with is_mapped := true, mapped_op_index := (d_i : Int) }
  let sRec := if matched then { sRec with value_matches := true } else sRec
  let dRec := st.dstMap.getD d_i default
  let dRec := { dRec with is_mapped := true, mapped_op_index := (s_i : Int) }
  let dRec := if matched then { dRec with value_matches := true } else dRec
  { srcMap := st.srcMap.set s_i sRec
    dstMap := st.dstMap.set d_i dRec
    total_match_size := st.total_match_size + 1
    last_matching_val_source := if matched then s_i else st.last_matching_val_source
    last_matching_val_dest := if matched then d_i else st.last_matching_val_dest }

/-- The alignment loop itself, iterating over the aligned index pairs of the
`equal` blocks in order. -/
def alignFold (source_trace dest_trace : TraceResult) :
    AlignState → List (Nat × Nat) → AlignState
  | st, [] => st
  | st, p :: ps =>
      alignFold source_trace dest_trace (applyAlignedPair source_trace dest_trace st p) ps

/-- Initial state of the alignment loop: one default metadata record per
executed op on each side, zero match size, and both cursors at 0. -/
def initAlignState (source_trace dest_trace : TraceResult) : AlignState :=
  { srcMap := List.replicate source_trace.ops_list.length default
    dstMap := List.replicate dest_trace.ops_list.length default
    total_match_size := 0
    last_matching_val_source := 0
    last_matching_val_dest := 0 }

/-- Construction of a `RuntimeComparison` (translated from
`RuntimeComparison.__init__`), abstracted over the outputs of the external
collaborators: the two traces come from the external tracer, and
`alignedPairs` is the flattened list of index pairs of the `equal` blocks
that `difflib.SequenceMatcher.get_opcodes` reports on the two node-id
sequences (the external LCS produces these pairs strictly increasing in both
coordinates). `run_completed` is the source run outcome being `"completed"`,
`test_passed` is the source run's test evaluation. -/
def mkRuntimeComparison (source_trace dest_trace : TraceResult)
    (alignedPairs : List (Nat × Nat)) : RuntimeComparison :=
  let st := alignFold source_trace dest_trace (initAlignState source_trace dest_trace)
    alignedPairs
  { run_status := source_trace.run_outcome
    run_completed := source_trace.run_outcome == "completed"
    test_passed := source_trace.eval_result
    total_match_size := st.total_match_size
    last_matching_val_source := st.last_matching_val_source
    last_matching_val_dest := st.last_matching_val_dest
    source_runtime_mapping_to_dest := st.srcMap
    dest_runtime_mapping_to_source := st.dstMap }

/-- Translation of `RuntimeComparison.__lt__`: this comparison is worse than
`other` when its source run does not get as close to the dest run. -/
def RuntimeComparison.lt (self other : RuntimeComparison) : Bool :=
  if other.run_completed && !self.run_completed then
    -- our run did not finish, but the other one did finish
    true
  else if self.run_completed && !other.run_completed then
    -- our run finished, but the other one did not finish
    false
  else if other.test_passed && !self.test_passed then
    -- our run did not pass the unit test, but the other run did
    true
  else if self.test_passed && !other.test_passed then
    -- our run passed the unit test, but the other one did not
    false
  else if self.test_passed && other.test_passed then
    -- both are passing this test - they are equally good
    false
  else
    -- both runs completed but did not pass; compare deviation points
    decide (self.last_matching_val_dest < other.last_matching_val_dest)

/-- Translation of `RuntimeComparison.__eq__`. -/
def RuntimeComparison.eqc (self other : RuntimeComparison) : Bool :=
  (other.test_passed && self.test_passed) ||
    (other.run_completed == self.run_completed &&
      (other.test_passed == self.test_passed &&
        other.last_matching_val_dest == self.last_matching_val_dest))

/-- Verdict of comparing two batteries of comparisons (`Effect`). -/
inductive Effect where
  | WORSE
  | SAME
  | MIXED
  | BETTER
deriving DecidableEq, Repr

/-- Translation of `compare_comparisons`: count, over positionally zipped
pairs of old/new comparisons, how many got strictly better and how many got
strictly worse, and aggregate into an `Effect`. -/
def compare_comparisons (orig_comps new_comps : List RuntimeComparison) : Effect :=
  let pairs := orig_comps.zip new_comps
  let new_better := pairs.countP (fun p => p.1.lt p.2)
  let new_worse := pairs.countP (fun p => p.2.lt p.1)
  if new_better + new_worse == 0 then .SAME
  else if new_worse == 0 then .BETTER
  else if new_better == 0 then .WORSE
  else .MIXED

/-- The ordering stated by the specification, written exactly from its words:
`a < b` iff, in lexicographic priority, (1) `a`'s run did not complete and
`b`'s did; (2) otherwise (completion ties) `a` did not pass the test and `b`
did; (3) otherwise neither passed and
`a.last_matching_val_dest < b.last_matching_val_dest`. -/
def ltSpec (a b : RuntimeComparison) : Prop :=
  (a.run_completed = false ∧ b.run_completed = true) ∨
    (a.run_completed = b.run_completed ∧ a.test_passed = false ∧ b.test_passed = true) ∨
    (a.run_completed = b.run_completed ∧ a.test_passed = false ∧ b.test_passed = false ∧
      a.last_matching_val_dest < b.last_matching_val_dest)

/-- A comparison whose source run raised but whose test evaluation was
nevertheless recorded as passing: reachable from the tracer's outputs, since
`run_completed` and `test_passed` are read off the trace independently. -/
def c7xA : PyFix.RuntimeComparison :=
  PyFix.mkRuntimeComparison ⟨[], "exception", true⟩ ⟨[], "completed", true⟩ []

/-- A comparison whose source run completed and passed. -/
def c7xB : PyFix.RuntimeComparison :=
  PyFix.mkRuntimeComparison ⟨[], "completed", true⟩ ⟨[], "completed", true⟩ []

/-- Concrete comparison (completed, failed, cursor 1) for the C7 witness. -/
def c7wA : PyFix.RuntimeComparison := ⟨"completed", true, false, 0, 0, 1, [], []⟩

/-- Concrete comparison (completed, failed, cursor 2) for the C7 witness. -/
def c7wB : PyFix.RuntimeComparison := ⟨"completed", true, false, 0, 0, 2, [], []⟩

/-- Concrete comparison (completed, failed, cursor 3) for the C7 witness. -/
def c7wC : PyFix.RuntimeComparison := ⟨"completed", true, false, 0, 0, 3, [], []⟩

/-- Old comparison (raised, but test recorded as passed) for the C9
counterexample; built from tracer outputs. -/
def c9old : PyFix.RuntimeComparison :=
  PyFix.mkRuntimeComparison ⟨[], "timeout", true⟩ ⟨[], "completed", true⟩ []

/-- New comparison (completed and passed) for the C9 counterexample. -/
def c9new : PyFix.RuntimeComparison :=
  PyFix.mkRuntimeComparison ⟨[], "completed", true⟩ ⟨[], "completed", true⟩ []

/-- Old-side list for the C9 witness. -/
def c9wO : List PyFix.RuntimeComparison := [⟨"completed", true, false, 0, 0, 1, [], []⟩]

/-- New-side list for the C9 witness. -/
def c9wN : List PyFix.RuntimeComparison := [⟨"completed", true, false, 0, 0, 1, [], []⟩]

/-- The last aligned pair of a pair list whose pushed values match
(`none` when no pair's values match): the reference value of the
last-matching-value cursors maintained by the alignment loop. -/
def lastMatch (source_trace dest_trace : TraceResult) : List (Nat × Nat) → Option (Nat × Nat)
  | [] => none
  | p :: ps =>
    match lastMatch source_trace dest_trace ps with
    | some q => some q
    | none => if valueMatchAt source_trace dest_trace p.1 p.2 then some p else none

/-- Source trace used by the C8 witness: two ops, the second pushing a value. -/
def c8wTrace : TraceResult := ⟨[⟨"op0", []⟩, ⟨"op1", ["v"]⟩], "completed", false⟩

/-- Aligned pairs used by the C8 witness. -/
def c8wPairs : List (Nat × Nat) := [(0, 0), (1, 1)]

/-! ## Part II: tree model and edit-script generator -/

/-- Modelled from the spec: a node of the mutable syntax tree (the
`ManipulableAst` class of the `manip_ast` module, which is not among the
sources; spec §3). `kind` is the syntactic category, `name` the printable
short form used to detect value changes, `varName` models `ast.id` of `Name`
nodes and `ast.arg` of `arg` nodes, `ctx` the context type name of `Name`
nodes (`"Store"`, `"Load"`, ...), `fields` the legal child-slot names
(`ast._fields`), `isList` whether children are addressed by ordinal position,
and `key_in_parent` / `orig_key` / `displaced_by` the slot bookkeeping of
spec §3. Node identities are strings (uuids in the source). -/
structure MNode where
  kind : String
  name : String
  varName : Option String := none
  ctx : Option String := none
  fields : List String := []
  isList : Bool := false
  parent : Option String := none
  key_in_parent : Option String := none
  orig_key : Option String := none
  displaced_by : Option String := none
  children : List String := []
deriving DecidableEq, Repr, Inhabited

/-- Modelled from the spec (§9): the id-keyed arena holding all nodes of a
tree; it doubles as the `index_to_node` map used throughout the generator. -/
abbrev Arena := List (String × MNode)

/-- Look a node up by id. -/
def lookupNode (a : Arena) (i : String) : Option MNode :=
  (a.find? (fun p => p.1 == i)).map (fun p => p.2)

/-- Replace the node stored at an id. -/
def setNode (a : Arena) (i : String) (n : MNode) : Arena :=
  a.map (fun p => if p.1 == i then (i, n) else p)

/-- Add a fresh node to the arena. -/
def addNode (a : Arena) (i : String) (n : MNode) : Arena := a ++ [(i, n)]

/-- Python-dict-style association-list update: replace the value stored at an
existing key, else append the new binding. -/
def dictSet {β : Type} (m : List (String × β)) (k : String) (v : β) :
    List (String × β) :=
  if (m.find? (fun p => p.1 == k)).isSome then
    m.map (fun p => if p.1 == k then (k, v) else p)
  else m ++ [(k, v)]

/-- Python-dict-style lookup. -/
def dictGet {β : Type} (m : List (String × β)) (k : String) : Option β :=
  (m.find? (fun p => p.1 == k)).map (fun p => p.2)

/-- Modelled from the spec: `remove_child` detaches a child from its parent's
child collection; the child's own `parent` / `key_in_parent` fields are left
stale, which the generator relies on (it reads `key_in_parent`, `orig_key`
and `displaced_by` of a node after removing it). -/
def removeChild (a : Arena) (parentId childId : String) : Arena :=
  match lookupNode a parentId with
  | none => a
  | some pn => setNode a parentId { pn with children := pn.children.erase childId }

/-- Modelled from the spec: `add_child_at_key` inserts a node into a named
slot of a keyed parent; an existing occupant of the slot is displaced to the
sentinel key `old_<k>` under the same parent, with `orig_key` set to the slot
and `displaced_by` to the incoming node's id (spec §3, displacement at most
one deep). -/
def addChildAtKey (a : Arena) (parentId childId : String) (key : String) : Arena :=
  match lookupNode a parentId with
  | none => a
  | some pn =>
    let occupant := pn.children.find? (fun c =>
      match lookupNode a c with
      | some cn => cn.key_in_parent == some key && c != childId
      | none => false)
    let a :=
      match occupant with
      | some oc =>
        match lookupNode a oc with
        | some ocn => setNode a oc { ocn with
            key_in_parent := some ("old_" ++ key)
            orig_key := some key
            displaced_by := some childId }
        | none => a
      | none => a
    let a :=
      match lookupNode a parentId with
      | some pn2 =>
        let cs := if pn2.children.contains childId then pn2.children
          else pn2.children ++ [childId]
        setNode a parentId { pn2 with children := cs }
      | none => a
    match lookupNode a childId with
    | some cn => setNode a childId
        { cn with parent := some parentId, key_in_parent := some key }
    | none => a

/-- Insert `c` immediately after the first occurrence of `b`. -/
def insertAfterElem (l : List String) (b c : String) : List String :=
  match l with
  | [] => [c]
  | x :: xs => if x == b then x :: c :: xs else x :: insertAfterElem xs b c

/-- Insert `c` immediately before the first occurrence of `f`. -/
def insertBeforeElem (l : List String) (f c : String) : List String :=
  match l with
  | [] => [c]
  | x :: xs => if x == f then c :: x :: xs else x :: insertBeforeElem xs f c

/-- Modelled from the spec: `add_child_between` inserts a node into a list
parent next to the given neighbours; neighbour references that are not
currently children of this parent are ignored, and insertion falls back to a
deterministic end (tail if a `before` reference was given, else head). -/
def addChildBetween (a : Arena) (parentId : String) (before after : Option String)
    (childId : String) : Arena :=
  match lookupNode a parentId with
  | none => a
  | some pn =>
    let kids := pn.children
    let newKids :=
      match before, after with
      | some b, _ =>
        if kids.contains b then insertAfterElem kids b childId
        else
          match after with
          | some f => if kids.contains f then insertBeforeElem kids f childId
              else kids ++ [childId]
          | none => kids ++ [childId]
      | none, some f =>
        if kids.contains f then insertBeforeElem kids f childId
        else childId :: kids
      | none, none => childId :: kids
    let a := setNode a parentId { pn with children := newKids }
    match lookupNode a childId with
    | some cn => setNode a childId
        { cn with parent := some parentId, key_in_parent := none }
    | none => a

/-- The immediate predecessor and successor of `c` in `l` (or nothing). -/
def neighborsIn (l : List String) (c : String) : Option String × Option String :=
  match l.findIdx? (fun x => x == c) with
  | none => (none, none)
  | some i => ((if i = 0 then none else l[i-1]?), l[i+1]?)

/-- Modelled from the spec: `get_child_neighbors` for list parents. -/
def getChildNeighbors (a : Arena) (parentId childId : String) :
    Option String × Option String :=
  match lookupNode a parentId with
  | none => (none, none)
  | some pn => neighborsIn pn.children childId

/-- Modelled from the spec: `update` adopts the other node's payload (kind,
printable name, identifier payload, context, field set, list-ness) while
retaining id, parent link, slot and children. -/
def updateNode (a : Arena) (i : String) (donor : MNode) : Arena :=
  match lookupNode a i with
  | none => a
  | some n => setNode a i { n with
      kind := donor.kind
      name := donor.name
      varName := donor.varName
      ctx := donor.ctx
      fields := donor.fields
      isList := donor.isList }

/-- Shallow clone of a node (`ManipulableAst(copy.deepcopy(node.ast),
node_index=node.index, shallow=True)`): same payload under the same id, with
no children and detached from any parent. -/
def shallowCopy (n : MNode) : MNode :=
  { kind := n.kind
    name := n.name
    varName := n.varName
    ctx := n.ctx
    fields := n.fields
    isList := n.isList }

/-- Printable form of the subtree rooted at a node (`str(tree)`), rendered
with fuel for termination: the node's slot key, its printable name and the
renderings of its children in order. -/
def renderNode (a : Arena) : Nat → String → String
  | 0, _ => "#"
  | fuel+1, i =>
    match lookupNode a i with
    | none => "?"
    | some n =>
      let keyStr := match n.key_in_parent with
        | some k => k ++ "="
        | none => ""
      keyStr ++ n.name ++ "(" ++
        String.intercalate "," (n.children.map (fun c => renderNode a fuel c)) ++ ")"

/-- Printable form of a whole tree. -/
def renderTree (a : Arena) (root : String) : String := renderNode a (a.length + 1) root

/-- Breadth-first id enumeration from a frontier, with fuel. -/
def bfsAux (a : Arena) : Nat → List String → List String
  | 0, _ => []
  | fuel+1, frontier =>
    match frontier with
    | [] => []
    | _ =>
      frontier ++ bfsAux a fuel (frontier.flatMap (fun i =>
        match lookupNode a i with
        | some n => n.children
        | none => []))

/-- Modelled from the spec: `manip_ast.breadth_first` id enumeration. -/
def breadthFirst (a : Arena) (root : String) : List String :=
  bfsAux a (a.length + 1) [root]

/-- Depth-first id enumeration (node before its children), with fuel. -/
def dfsAux (a : Arena) : Nat → String → List String
  | 0, _ => []
  | fuel+1, i =>
    i :: (match lookupNode a i with
      | some n => n.children
      | none => []).flatMap (fun c => dfsAux a fuel c)

/-- Post-order id enumeration (children before the node), with fuel;
models `manip_ast.postorder`. -/
def postorderAux (a : Arena) : Nat → String → List String
  | 0, _ => []
  | fuel+1, i =>
    ((match lookupNode a i with
      | some n => n.children
      | none => []).flatMap (fun c => postorderAux a fuel c)) ++ [i]

/-- Possible edit actions (`Action`). -/
inductive Action where
  | UPDATE
  | INSERT
  | MOVE
  | DELETE
deriving DecidableEq, Repr

/-- Possible edit-script stages (`Stage`); the stages of an edit script
always happen in the declared order. -/
inductive Stage where
  | UPDATE
  | ALIGN_KEYS
  | ALIGN
  | INSERT
  | MOVE
  | DELETE
deriving DecidableEq, Repr

/-- Translation of the `Edit` dataclass: one edit which can be applied to a
specific tree, with positional metadata and the informational flags. -/
structure Edit where
  action : Action
  stage : Stage
  node_id : String
  parent_id : Option String := none
  new_node_id : Option String := none
  key_in_parent : Option String := none
  before : Option String := none
  after : Option String := none
  is_fix_temp_key : Bool := false
  orig_key : Option String := none
  displaced_by_id : Option String := none
  is_rename : Bool := false
  old_name : Option String := none
  new_name : Option String := none
  is_cleanup_after_node_type_change : Bool := false
deriving DecidableEq, Repr

/-- Record-keeping state of `generate_edit_script`: the working source arena,
the two directions of the index mapping, the two directions of the
variable-rename map, the growing edit script and the donor set
(`additional_nodes`). The dest arena is read-only and passed separately. -/
structure GenState where
  src : Arena
  s2d : List (String × String)
  d2s : List (String × String)
  var_s2d : List (String × String)
  var_d2s : List (String × String)
  script : List Edit
  additional : List (String × MNode)
deriving DecidableEq, Repr

/-- Translation of the helper `is_update_variable_rename`: decide whether an
update of `source_node` into `dest_node` is a variable rename, returning the
verdict with the old/new names together with the updated rename maps (a
`Name`/`Name` pair updates the maps only in store context and only the first
time the source identifier is seen; an `arg`/`arg` pair updates them
unconditionally; the verdict itself is independent of the context). -/
def is_update_variable_rename (var_s2d var_d2s : List (String × String))
    (source_node dest_node : MNode) :
    (Bool × Option String × Option String) ×
      List (String × String) × List (String × String) :=
  if source_node.kind == "Name" && dest_node.kind == "Name" then
    let source_var := source_node.varName.getD ""
    let dest_var := dest_node.varName.getD ""
    if source_node.ctx == some "Store" && dest_node.ctx == some "Store" then
      if (dictGet var_s2d source_var).isNone then
        ((true, some source_var, some dest_var),
          dictSet var_s2d source_var dest_var, dictSet var_d2s dest_var source_var)
      else ((true, some source_var, some dest_var), var_s2d, var_d2s)
    else ((true, some source_var, some dest_var), var_s2d, var_d2s)
  else if source_node.kind == "arg" && dest_node.kind == "arg" then
    let source_var := source_node.varName.getD ""
    let dest_var := dest_node.varName.getD ""
    ((true, some source_var, some dest_var),
      dictSet var_s2d source_var dest_var, dictSet var_d2s dest_var source_var)
  else ((false, none, none), var_s2d, var_d2s)

/-- Translation of the helper `is_insert_variable_rename`: an inserted `Name`
whose identifier is a key of the dest→source rename map is a rename. -/
def is_insert_variable_rename (var_d2s : List (String × String))
    (insert_node : MNode) : Bool × Option String × Option String :=
  if insert_node.kind == "Name" then
    let var_name := insert_node.varName.getD ""
    match dictGet var_d2s var_name with
    | some old => (true, some old, some var_name)
    | none => (false, none, none)
  else (false, none, none)

/-- Length of the common run of `xs` and `ys` starting at positions `i`, `j`
and staying below the bounds `ahi`, `bhi`; fuel-recursive. -/
def commonRun (xs ys : List String) (ahi bhi : Nat) : Nat → Nat → Nat → Nat
  | 0, _, _ => 0
  | fuel+1, i, j =>
    if i < ahi && j < bhi && (xs[i]?).isSome && xs[i]? == ys[j]? then
      1 + commonRun xs ys ahi bhi fuel (i+1) (j+1)
    else 0

/-- Modelled from the spec: `difflib.SequenceMatcher.find_longest_match` on
the slices `[alo, ahi) × [blo, bhi)` of the two sequences (the external LCS
library): among all maximal matching runs it returns the one starting
earliest in the first sequence, ties broken by the second; `(alo, blo, 0)`
when nothing matches. -/
def findLongestMatch (xs ys : List String) (alo ahi blo bhi : Nat) :
    Nat × Nat × Nat :=
  let cands := (List.range' alo (ahi - alo)).flatMap (fun i =>
    (List.range' blo (bhi - blo)).map (fun j =>
      (i, j, commonRun xs ys ahi bhi (xs.length + 1) i j)))
  cands.foldl (fun best c => if c.2.2 > best.2.2 then c else best) (alo, blo, 0)

/-- Modelled from the spec: the recursive block decomposition of
`difflib.SequenceMatcher.get_matching_blocks` (the zero-length terminal
sentinel is omitted; it contributes nothing to the aligned-id set the
generator builds from the blocks). -/
def matchingBlocksAux (xs ys : List String) :
    Nat → Nat → Nat → Nat → Nat → List (Nat × Nat × Nat)
  | 0, _, _, _, _ => []
  | fuel+1, alo, ahi, blo, bhi =>
    let m := findLongestMatch xs ys alo ahi blo bhi
    if m.2.2 == 0 then []
    else
      matchingBlocksAux xs ys fuel alo m.1 blo m.2.1 ++ [m] ++
        matchingBlocksAux xs ys fuel (m.1 + m.2.2) ahi (m.2.1 + m.2.2) bhi

/-- Matching blocks of two full sequences. -/
def getMatchingBlocks (xs ys : List String) : List (Nat × Nat × Nat) :=
  matchingBlocksAux xs ys (xs.length + ys.length + 1) 0 xs.length 0 ys.length

/-- UPDATE stage for one mapped pair (`generate_edit_script`, update stage):
when the printable names differ, emit an UPDATE edit carrying the rename
verdict, record the shallow donor clone under the dest id, and apply the
update to the working tree. -/
def updateStep (dst : Arena) (st : GenState) (s_i d_i : String) : GenState :=
  match lookupNode st.src s_i, lookupNode dst d_i with
  | some s_n, some d_n =>
    if s_n.name != d_n.name then
      let r := is_update_variable_rename st.var_s2d st.var_d2s s_n d_n
      let e : Edit :=
        { action := .UPDATE
          stage := .UPDATE
          node_id := s_i
          new_node_id := some d_i
          is_rename := r.1.1
          old_name := r.1.2.1
          new_name := r.1.2.2 }
      { st with
        var_s2d := r.2.1
        var_d2s := r.2.2
        script := st.script ++ [e]
        additional := dictSet st.additional d_i (shallowCopy d_n)
        src := updateNode st.src s_i d_n }
    else st
  | _, _ => st

/-- ALIGN_KEYS stage for one mapped pair (`generate_edit_script`, align-keys
stage): a mapped node under a keyed parent whose slot differs from its dest
correspondent's slot (with the parents corresponded) is detached and
re-inserted under the dest slot, and a MOVE edit of stage ALIGN_KEYS is
emitted. -/
def alignKeysStep (dst : Arena) (st : GenState) (s_i d_i : String) : GenState :=
  match lookupNode st.src s_i, lookupNode dst d_i with
  | some s_n, some d_n =>
    if s_n.key_in_parent != d_n.key_in_parent then
      match s_n.parent, d_n.parent with
      | some sp, some dp =>
        match lookupNode st.src sp with
        | some spn =>
          if !spn.isList && dictGet st.s2d sp == some dp then
            match d_n.key_in_parent with
            | some dkey =>
              let a := removeChild st.src sp s_i
              let a := addChildAtKey a sp s_i dkey
              let e : Edit :=
                { action := .MOVE
                  stage := .ALIGN_KEYS
                  node_id := s_i
                  parent_id := some sp
                  key_in_parent := some dkey }
              { st with src := a, script := st.script ++ [e] }
            | none => st
          else st
        | none => st
      | _, _ => st
    else st
  | _, _ => st

/-- ALIGN stage for one mapped pair (`generate_edit_script`, align-in-lists
stage): for a mapped list node, compute the mapped children in source order
and in dest-derived order, mark the longest-common-subsequence members as
correctly aligned, and move every remaining child next to its dest-order
neighbours, emitting one MOVE edit of stage ALIGN per moved child. -/
def alignListStep (dst : Arena) (st : GenState) (s_i d_i : String) : GenState :=
  match lookupNode st.src s_i, lookupNode dst d_i with
  | some s_n, some d_n =>
    if s_n.isList then
      let mapped_source_order := s_n.children.filter (fun c =>
        match dictGet st.s2d c with
        | some dc =>
          match lookupNode dst dc with
          | some dcn => dcn.parent == some d_i
          | none => false
        | none => false)
      let mapped_dest_order := d_n.children.filterMap (fun cd =>
        match dictGet st.d2s cd with
        | some sc =>
          match lookupNode st.src sc with
          | some scn => if scn.parent == some s_i then some sc else none
          | none => none
        | none => none)
      let blocks := getMatchingBlocks mapped_source_order mapped_dest_order
      let correctly_aligned := blocks.flatMap (fun m =>
        (mapped_source_order.drop m.1).take m.2.2)
      (List.range mapped_dest_order.length).foldl (fun st idx =>
        let c_s_i := mapped_dest_order.getD idx ""
        if !correctly_aligned.contains c_s_i then
          let before_c := if 0 < idx then some (mapped_dest_order.getD (idx-1) "")
            else none
          let after_c := if idx + 1 < mapped_dest_order.length
            then some (mapped_dest_order.getD (idx+1) "") else none
          let a := removeChild st.src s_i c_s_i
          let a := addChildBetween a s_i before_c after_c c_s_i
          let e : Edit :=
            { action := .MOVE
              stage := .ALIGN
              node_id := c_s_i
              parent_id := some s_i
              before := before_c
              after := after_c }
          { st with src := a, script := st.script ++ [e] }
        else st) st
    else st
  | _, _ => st

/-- Combined processing of one source node during the depth-first walk:
update stage, then align-keys, then align-in-lists (unmapped nodes are
skipped). -/
def processUpdateAlign (dst : Arena) (st : GenState) (s_i : String) : GenState :=
  match dictGet st.s2d s_i with
  | none => st
  | some d_i =>
    let st := updateStep dst st s_i d_i
    let st := alignKeysStep dst st s_i d_i
    alignListStep dst st s_i d_i

/-- The current child list of a node (empty if the id is unknown). -/
def childrenOf (a : Arena) (i : String) : List String :=
  match lookupNode a i with
  | some n => n.children
  | none => []

/-- Modelled from the spec (§4.1.1): the combined UPDATE / ALIGN_KEYS / ALIGN
walk over the working source tree in depth-first order; a node is processed
first, then its children as they stand after its own stage actions are walked
recursively (the generator's traversal is interleaved with its mutations). -/
def walkNode (dst : Arena) : Nat → GenState → String → GenState
  | 0, st, _ => st
  | fuel+1, st, s_i =>
    let st := processUpdateAlign dst st s_i
    (childrenOf st.src s_i).foldl (fun st c => walkNode dst fuel st c) st

/-- Translation of the helper `get_source_parent_of_mapped`: the parent (id)
of the source node mapped to the given dest id. -/
def get_source_parent_of_mapped (st : GenState) (dest_index : String) :
    Option String :=
  match dictGet st.d2s dest_index with
  | some source_index =>
    match lookupNode st.src source_index with
    | some n => n.parent
    | none => none
  | none => none

/-- The backward defensive walk of `insert_based_on_dest_location`: keep
stepping to the previous dest sibling until it is mapped onto a source node
whose parent is the desired source parent (or the end is reached). -/
def skipUnmappedBackward (dst : Arena) (st : GenState)
    (dparentId desiredParentId : String) : Nat → Option String → Option String
  | 0, cur => cur
  | fuel+1, cur =>
    match cur with
    | none => none
    | some b =>
      if (dictGet st.d2s b).isNone ||
          get_source_parent_of_mapped st b != some desiredParentId then
        skipUnmappedBackward dst st dparentId desiredParentId fuel
          (getChildNeighbors dst dparentId b).1
      else some b

/-- The forward defensive walk of `insert_based_on_dest_location`. -/
def skipUnmappedForward (dst : Arena) (st : GenState)
    (dparentId desiredParentId : String) : Nat → Option String → Option String
  | 0, cur => cur
  | fuel+1, cur =>
    match cur with
    | none => none
    | some f =>
      if (dictGet st.d2s f).isNone ||
          get_source_parent_of_mapped st f != some desiredParentId then
        skipUnmappedForward dst st dparentId desiredParentId fuel
          (getChildNeighbors dst dparentId f).2
      else some f

/-- Translation of `insert_based_on_dest_location`: place the given source
node mirroring the position of its dest correspondent (list parents get
neighbour-relative insertion after the defensive walks, keyed parents get the
dest slot with temp-key / cleanup flags recorded), returning the updated
state together with the completed edit. -/
def insert_based_on_dest_location (dst : Arena) (st : GenState)
    (source_node_index : String) (e0 : Edit) : GenState × Edit :=
  match lookupNode st.src source_node_index, dictGet st.s2d source_node_index with
  | some insert_node, some dnode_i =>
    match lookupNode dst dnode_i with
    | some dest_node =>
      match dest_node.parent with
      | some dparent =>
        match dictGet st.d2s dparent with
        | some desired_parent_i =>
          match lookupNode st.src desired_parent_i with
          | some desired_parent =>
            let ins_edit := { e0 with parent_id := some desired_parent_i }
            if desired_parent.isList then
              let nbrs := getChildNeighbors dst dparent dnode_i
              let dest_before := skipUnmappedBackward dst st dparent
                desired_parent_i (dst.length + 1) nbrs.1
              let dest_after := skipUnmappedForward dst st dparent
                desired_parent_i (dst.length + 1) nbrs.2
              let insert_before := dest_before.bind (fun b => dictGet st.d2s b)
              let insert_after := dest_after.bind (fun f => dictGet st.d2s f)
              let a := addChildBetween st.src desired_parent_i insert_before
                insert_after source_node_index
              let ins_edit :=
                { ins_edit with before := insert_before, after := insert_after }
              ({ st with src := a }, ins_edit)
            else
              let desired_key := dest_node.key_in_parent.getD ""
              let ins_edit :=
                match insert_node.key_in_parent with
                | some k =>
                  if k.startsWith "old_" then
                    { ins_edit with
                      is_fix_temp_key := true
                      orig_key := insert_node.orig_key
                      displaced_by_id := insert_node.displaced_by }
                  else
                    match insert_node.parent with
                    | some ip =>
                      match lookupNode st.src ip with
                      | some ipn =>
                        if !(ipn.fields.contains k) then
                          { ins_edit with is_cleanup_after_node_type_change := true }
                        else ins_edit
                      | none => ins_edit
                    | none => ins_edit
                | none => ins_edit
              let a := addChildAtKey st.src desired_parent_i source_node_index
                desired_key
              let ins_edit := { ins_edit with key_in_parent := some desired_key }
              ({ st with src := a }, ins_edit)
          | none => (st, e0)
        | none => (st, e0)
      | none => (st, e0)
    | none => (st, e0)
  | _, _ => (st, e0)

/-- INSERT step for one dest node (`generate_edit_script`, insert stage): an
unmapped dest node is shallow-cloned under its own id into the working arena
and the donor set, the mapping is extended by the identity pair, the rename
flag is derived from the dest→source rename map, and the clone is placed at
the dest-mirrored position with an INSERT edit emitted. -/
def insertStepFor (dst : Arena) (st : GenState) (d_i : String) : GenState :=
  if (dictGet st.d2s d_i).isNone then
    match lookupNode dst d_i with
    | some d_n =>
      let to_insert := shallowCopy d_n
      let st :=
        { st with
          additional := dictSet st.additional d_i to_insert
          s2d := dictSet st.s2d d_i d_i
          d2s := dictSet st.d2s d_i d_i
          src := addNode st.src d_i to_insert }
      let r := is_insert_variable_rename st.var_d2s to_insert
      let insert_e : Edit :=
        { action := .INSERT
          stage := .INSERT
          node_id := d_i
          is_rename := r.1
          old_name := r.2.1
          new_name := r.2.2 }
      let res := insert_based_on_dest_location dst st d_i insert_e
      { res.1 with script := res.1.script ++ [res.2] }
    | none => st
  else st

/-- INSERT phase: breadth-first walk of the dest tree. -/
def insertPhase (dst : Arena) (droot : String) (st : GenState) : GenState :=
  (breadthFirst dst droot).foldl (fun st d_i => insertStepFor dst st d_i) st

/-- MOVE step for one dest node (`generate_edit_script`, move stage): a
non-root dest node whose source correspondent sits under the wrong source
parent is detached and re-inserted at the dest-mirrored position, with a MOVE
edit emitted. -/
def moveStepFor (dst : Arena) (st : GenState) (d_i : String) : GenState :=
  match lookupNode dst d_i with
  | some d_n =>
    match d_n.parent with
    | some dp =>
      match dictGet st.d2s d_i with
      | some s_i =>
        match lookupNode st.src s_i, dictGet st.d2s dp with
        | some s_n, some correct_s_parent =>
          if s_n.parent != some correct_s_parent then
            let move_e : Edit := { action := .MOVE, stage := .MOVE, node_id := s_i }
            let a := match s_n.parent with
              | some sp => removeChild st.src sp s_i
              | none => st.src
            let res := insert_based_on_dest_location dst { st with src := a } s_i move_e
            { res.1 with script := res.1.script ++ [res.2] }
          else st
        | _, _ => st
      | none => st
    | none => st
  | none => st

/-- MOVE phase: breadth-first walk of the dest tree. -/
def movePhase (dst : Arena) (droot : String) (st : GenState) : GenState :=
  (breadthFirst dst droot).foldl (fun st d_i => moveStepFor dst st d_i) st

/-- DELETE step for one source node (`generate_edit_script`, delete stage):
an unmapped source node is detached from its parent and a DELETE edit is
emitted, with the temp-key / cleanup flags derived from the node's (stale)
slot key. -/
def deleteStepFor (st : GenState) (s_i : String) : GenState :=
  if (dictGet st.s2d s_i).isNone then
    match lookupNode st.src s_i with
    | some s_n =>
      let a := match s_n.parent with
        | some sp => removeChild st.src sp s_i
        | none => st.src
      let delete_e : Edit := { action := .DELETE, stage := .DELETE, node_id := s_i }
      let delete_e :=
        match s_n.key_in_parent with
        | some k =>
          if k.startsWith "old_" then
            { delete_e with
              is_fix_temp_key := true
              orig_key := s_n.orig_key
              displaced_by_id := s_n.displaced_by }
          else
            match s_n.parent with
            | some sp =>
              match lookupNode st.src sp with
              | some spn =>
                if !(spn.fields.contains k) then
                  { delete_e with is_cleanup_after_node_type_change := true }
                else delete_e
              | none => delete_e
            | none => delete_e
        | none => delete_e
      { st with src := a, script := st.script ++ [delete_e] }
    | none => st
  else st

/-- DELETE phase: post-order list of the working source tree, materialised
before any deletion happens (as the source does). -/
def deletePhase (sroot : String) (st : GenState) : GenState :=
  let actual_postorder := postorderAux st.src (st.src.length + 1) sroot
  actual_postorder.foldl (fun st s_i => deleteStepFor st s_i) st

/-- All phases of `generate_edit_script` on the record-keeping state: the
mapping dictionaries are built from the pair set, then the combined
UPDATE/ALIGN walk, INSERT, MOVE and DELETE run in order. -/
def runPhases (source_tree dest_tree : Arena) (sroot droot : String)
    (index_mapping : List (String × String)) : GenState :=
  let st : GenState :=
    { src := source_tree
      s2d := index_mapping.foldl (fun m p => dictSet m p.1 p.2) []
      d2s := index_mapping.foldl (fun m p => dictSet m p.2 p.1) []
      var_s2d := []
      var_d2s := []
      script := []
      additional := [] }
  let st := walkNode dest_tree (source_tree.length + 1) st sroot
  let st := insertPhase dest_tree droot st
  let st := movePhase dest_tree droot st
  deletePhase sroot st

/-- Translation of `generate_edit_script`: run all phases (the model's value
semantics stand in for the private deep copies of the source), then verify
that the printable form of the edited working source tree equals that of the
dest tree; on mismatch the generator raises the consistency error instead of
returning the script, the donor set and the rename map. -/
def generate_edit_script (source_tree dest_tree : Arena) (sroot droot : String)
    (index_mapping : List (String × String)) :
    Except String (List Edit × List (String × MNode) × List (String × String)) :=
  let st := runPhases source_tree dest_tree sroot droot index_mapping
  if renderTree st.src sroot == renderTree dest_tree droot then
    .ok (st.script, st.additional, st.var_s2d)
  else
    .error "Source tree is not equal to dest tree"

/-- DELETE branch of `Edit.apply_edit`: non-leaf deletion is forbidden unless
`nonleaf_OK`. -/
def applyDeleteEdit (e : Edit) (index_to_node : Arena) (nonleaf_OK : Bool) :
    Except String Arena :=
  match lookupNode index_to_node e.node_id with
  | none => .error "unknown node"
  | some node =>
    if !nonleaf_OK && 0 < node.children.length then
      .error "ForbiddenEditException: trying to delete node with children"
    else
      match node.parent with
      | some p => .ok (removeChild index_to_node p e.node_id)
      | none => .error "node has no parent"

/-- INSERT branch of `Edit.apply_edit`: keyed insertion when the edit carries
a slot key, list insertion between the recorded neighbours otherwise. -/
def applyInsertEdit (e : Edit) (index_to_node : Arena) (nonleaf_OK : Bool) :
    Except String Arena :=
  match lookupNode index_to_node e.node_id with
  | none => .error "unknown node"
  | some node =>
    if !nonleaf_OK && 0 < node.children.length then
      .error "ForbiddenEditException: trying to insert node with children"
    else
      match e.parent_id with
      | none => .error "insert edit has no parent id"
      | some p =>
        match e.key_in_parent with
        | some k => .ok (addChildAtKey index_to_node p e.node_id k)
        | none => .ok (addChildBetween index_to_node p e.before e.after e.node_id)

/-- Translation of `Edit.apply_edit`: apply the edit described by this
object, translating node ids to nodes through `index_to_node`. Note the
UPDATE branch reads the replacement node back from
`index_to_node[self.node_id]` — the subject's own id — exactly as the source
does; the `new_node_id` field is not consulted. A MOVE is a delete followed
by an insert with the non-leaf guard waived. -/
def Edit.apply_edit (e : Edit) (index_to_node : Arena)
    (nonleaf_OK : Bool := false) : Except String Arena :=
  match e.action with
  | .UPDATE =>
    match lookupNode index_to_node e.node_id with
    | none => .error "unknown node"
    | some _node =>
      match lookupNode index_to_node e.node_id with
      | some new_node => .ok (updateNode index_to_node e.node_id new_node)
      | none => .error "unknown replacement node"
  | .DELETE => applyDeleteEdit e index_to_node nonleaf_OK
  | .INSERT => applyInsertEdit e index_to_node nonleaf_OK
  | .MOVE => do
    let a ← applyDeleteEdit e index_to_node true
    applyInsertEdit e a true

/-- Position of a stage in the declared full stage order. -/
def stageIdx : Stage → Nat
  | .UPDATE => 0
  | .ALIGN_KEYS => 1
  | .ALIGN => 2
  | .INSERT => 3
  | .MOVE => 4
  | .DELETE => 5

/-- Comparing two edits by stage position is decidable. -/
instance : DecidableRel (fun e1 e2 : Edit => stageIdx e1.stage ≤ stageIdx e2.stage) :=
  fun _ _ => Nat.decLe _ _

/-- The stage-monotonicity property claimed of edit scripts: stage labels,
read in emission order, are non-decreasing in the full stage order. -/
abbrev StagesNonDecreasing (es : List Edit) : Prop :=
  es.Pairwise (fun e1 e2 => stageIdx e1.stage ≤ stageIdx e2.stage)

/-- Coarse phase index: the three stages emitted by the combined depth-first
walk count as one phase, followed by INSERT, MOVE and DELETE. -/
def coarseStageIdx : Stage → Nat
  | .UPDATE => 0
  | .ALIGN_KEYS => 0
  | .ALIGN => 0
  | .INSERT => 1
  | .MOVE => 2
  | .DELETE => 3

/-- A state transformer that only appends edits to the script, all of coarse
phase `k`. -/
def AppendsOnly (k : Nat) (f : GenState → GenState) : Prop :=
  ∀ st, ∃ t, (f st).script = st.script ++ t ∧ ∀ e ∈ t, coarseStageIdx e.stage = k

/-- A state transformer that leaves both variable-rename maps unchanged. -/
def KeepsVarMaps (f : GenState → GenState) : Prop :=
  ∀ st, (f st).var_s2d = st.var_s2d ∧ (f st).var_d2s = st.var_d2s

/-- Lock-step invariant of the rename maps: every source→dest entry's dest
identifier is present as a key of the dest→source map. -/
def RenameLockStep (varS varD : List (String × String)) : Prop :=
  ∀ p ∈ varS, ∃ q ∈ varD, q.1 = p.2

/-- A state transformer that preserves the rename lock-step invariant
together with the uniqueness of rename-map keys. -/
def PreservesRenameInv (f : GenState → GenState) : Prop :=
  ∀ st, RenameLockStep st.var_s2d st.var_d2s ∧ (st.var_s2d.map Prod.fst).Nodup →
    RenameLockStep (f st).var_s2d (f st).var_d2s ∧
      ((f st).var_s2d.map Prod.fst).Nodup

/-- The rename condition claimed of UPDATE edits, evaluated against the
original trees: the corresponded nodes are both `Name` *in store context*,
or both `arg`. -/
def c5RenameCondB (src dst : Arena) (e : Edit) : Bool :=
  match lookupNode src e.node_id, e.new_node_id.bind (fun i => lookupNode dst i) with
  | some sn, some dn =>
    (sn.kind == "Name" && dn.kind == "Name" &&
      sn.ctx == some "Store" && dn.ctx == some "Store") ||
    (sn.kind == "arg" && dn.kind == "arg")
  | _, _ => false

/-- Convenience constructor for example nodes. -/
def mkNode (kind name : String) (isList : Bool) (parent : Option String)
    (children : List String) : MNode :=
  { kind := kind
    name := name
    isList := isList
    parent := parent
    children := children }

/-- Convenience constructor for example `Name` nodes. -/
def mkNameNode (name var ctx parent : String) : MNode :=
  { kind := "Name"
    name := name
    varName := some var
    ctx := some ctx
    parent := some parent }

/-- Convenience constructor for example `arg` nodes. -/
def mkArgNode (name var parent : String) : MNode :=
  { kind := "arg"
    name := name
    varName := some var
    parent := some parent }

/-- Source tree of the C2 counterexample: a list root with two statements. -/
def ex2src : Arena :=
  [("r", mkNode "Module" "Module" true none ["a", "b"]),
   ("a", mkNode "Expr" "Expr:val1" false (some "r") []),
   ("b", mkNode "Expr" "Expr:val2" false (some "r") [])]

/-- Dest tree of the C2 counterexample: same statements, reordered, and the
first one's value changed. -/
def ex2dst : Arena :=
  [("R", mkNode "Module" "Module" true none ["B", "A"]),
   ("A", mkNode "Expr" "Expr:val9" false (some "R") []),
   ("B", mkNode "Expr" "Expr:val2" false (some "R") [])]

/-- Node correspondence of the C2 counterexample. -/
def ex2map : List (String × String) := [("r", "R"), ("a", "A"), ("b", "B")]

/-- The edit script the generator returns on the C2 counterexample input. -/
def ex2script : List Edit :=
  ((generate_edit_script ex2src ex2dst "r" "R" ex2map).toOption.map
    (fun t => t.1)).getD []

/-- Arena of the C3 failing input: subject node `a3` (name `x`) and donor
node `b3` (name `y`). -/
def ex3arena : Arena :=
  [("a3", mkNode "Num" "x" false none []),
   ("b3", mkNode "Num" "y" false none [])]

/-- UPDATE edit of the C3 failing input: replace the contents of `a3` by
those of donor `b3`. -/
def ex3edit : Edit :=
  { action := .UPDATE, stage := .UPDATE, node_id := "a3", new_node_id := some "b3" }

/-- Source tree of the C4 counterexample: two formal parameters `x` and `w`. -/
def ex4src : Arena :=
  [("r", mkNode "Module" "Module" true none ["p1", "p2"]),
   ("p1", mkArgNode "arg:x" "x" "r"),
   ("p2", mkArgNode "arg:w" "w" "r")]

/-- Dest tree of the C4 counterexample: both parameters renamed to `y`
(e.g. parameters of two different functions). -/
def ex4dst : Arena :=
  [("R", mkNode "Module" "Module" true none ["q1", "q2"]),
   ("q1", mkArgNode "arg:y" "y" "R"),
   ("q2", mkArgNode "arg:y" "y" "R")]

/-- Node correspondence of the C4 counterexample. -/
def ex4map : List (String × String) := [("r", "R"), ("p1", "q1"), ("p2", "q2")]

/-- The generator state after all phases on the C4 counterexample input. -/
def ex4state : GenState := runPhases ex4src ex4dst "r" "R" ex4map

/-- Source tree of the C5 counterexample: a single variable reference
(load context). -/
def ex5src : Arena :=
  [("r", mkNode "Module" "Module" true none ["n"]),
   ("n", mkNameNode "Name:x" "x" "Load" "r")]

/-- Dest tree of the C5 counterexample: the reference renamed to `y`, still
in load context. -/
def ex5dst : Arena :=
  [("R", mkNode "Module" "Module" true none ["N"]),
   ("N", mkNameNode "Name:y" "y" "Load" "R")]

/-- Node correspondence of the C5 counterexample. -/
def ex5map : List (String × String) := [("r", "R"), ("n", "N")]

/-- The edit script the generator returns on the C5 counterexample input. -/
def ex5script : List Edit :=
  ((generate_edit_script ex5src ex5dst "r" "R" ex5map).toOption.map
    (fun t => t.1)).getD []

end PyFix

/-! ## Claim theorems for the comparison ordering -/

open PyFix

/-- C6: for every two runtime comparisons built against the same dest tree and
unit test, `RuntimeComparison.__lt__` holds exactly as the lexicographic rule
of the specification states: first by run completion, then by test pass, and,
when neither passed, by the deviation cursor `last_matching_val_dest`. -/
theorem C6_lt_matches_spec (a b : PyFix.RuntimeComparison) :
    a.lt b = true ↔ PyFix.ltSpec a b := by
  rcases a with ⟨_, ac, ap, _, _, av, _, _⟩
  rcases b with ⟨_, bc, bp, _, _, bv, _, _⟩
  cases ac <;> cases bc <;> cases ap <;> cases bp <;>
    simp [PyFix.RuntimeComparison.lt, PyFix.ltSpec]

/-- C7 counterexample: the relation is not a total order on all comparisons.
For `c7xA` (raised, but test recorded as passed) and `c7xB` (completed and
passed), `c7xA < c7xB` and `c7xA == c7xB` hold simultaneously, so it is false
that exactly one of `a < b`, `a == b`, `b < a` holds. -/
theorem C7_counterexample :
    ¬ ((c7xA.lt c7xB = true ∧ c7xA.eqc c7xB = false ∧ c7xB.lt c7xA = false) ∨
       (c7xA.lt c7xB = false ∧ c7xA.eqc c7xB = true ∧ c7xB.lt c7xA = false) ∨
       (c7xA.lt c7xB = false ∧ c7xA.eqc c7xB = false ∧ c7xB.lt c7xA = true)) := by
  decide

/-- C7 amended: equality holds exactly when both pass or all three keys tie
(unconditionally), and on comparisons where a passing test implies a completed
run, the relation is a strict total order: exactly one of `a < b`, `a == b`,
`b < a` holds, and `<` is transitive. -/
theorem C7_amended_total_order (a b c : PyFix.RuntimeComparison)
    (ha : a.test_passed = true → a.run_completed = true)
    (hb : b.test_passed = true → b.run_completed = true)
    (hc : c.test_passed = true → c.run_completed = true) :
    (a.eqc b = true ↔ ((a.test_passed = true ∧ b.test_passed = true) ∨
      (a.run_completed = b.run_completed ∧ a.test_passed = b.test_passed ∧
        a.last_matching_val_dest = b.last_matching_val_dest))) ∧
    ((a.lt b = true ∧ a.eqc b = false ∧ b.lt a = false) ∨
     (a.lt b = false ∧ a.eqc b = true ∧ b.lt a = false) ∨
     (a.lt b = false ∧ a.eqc b = false ∧ b.lt a = true)) ∧
    (a.lt b = true → b.lt c = true → a.lt c = true) := by
  rcases a with ⟨_, ac, ap, _, _, av, _, _⟩
  rcases b with ⟨_, bc, bp, _, _, bv, _, _⟩
  rcases c with ⟨_, cc, cp, _, _, cv, _, _⟩
  cases ac <;> cases ap <;> cases bc <;> cases bp <;> cases cc <;> cases cp <;>
    simp_all [PyFix.RuntimeComparison.lt, PyFix.RuntimeComparison.eqc] <;> omega

/-- Witness for `C7_amended_total_order` at three concrete comparisons that
satisfy its hypotheses. -/
theorem C7_amended_total_order_witness :
    (c7wA.test_passed = true → c7wA.run_completed = true) ∧
    (c7wB.test_passed = true → c7wB.run_completed = true) ∧
    (c7wC.test_passed = true → c7wC.run_completed = true) ∧
    ((c7wA.lt c7wB = true ∧ c7wA.eqc c7wB = false ∧ c7wB.lt c7wA = false) ∨
     (c7wA.lt c7wB = false ∧ c7wA.eqc c7wB = true ∧ c7wB.lt c7wA = false) ∨
     (c7wA.lt c7wB = false ∧ c7wA.eqc c7wB = false ∧ c7wB.lt c7wA = true)) :=
  ⟨by decide, by decide, by decide,
    (C7_amended_total_order c7wA c7wB c7wC (by decide) (by decide) (by decide)).2.1⟩

/-- Zipping two lists only sees the common prefix up to the shorter length. -/
theorem zip_take_min {α β : Type} (l : List α) (l' : List β) :
    l.zip l' = (l.take (min l.length l'.length)).zip (l'.take (min l.length l'.length)) := by
  induction l generalizing l' with
  | nil => simp
  | cons a l ih =>
    cases l' with
    | nil => simp
    | cons b l' =>
      simp only [List.zip_cons_cons, List.length_cons, Nat.succ_min_succ, List.take_succ_cons]
      exact congrArg _ (ih l')

/-- C9 counterexample: `compare_comparisons` can return `BETTER` although
every positional old/new pair compares equal (`__eq__`), refuting "returns
SAME iff every positional old/new pair compares equal". -/
theorem C9_counterexample :
    c9old.eqc c9new = true ∧
      PyFix.compare_comparisons [c9old] [c9new] = PyFix.Effect.BETTER := by
  decide

/-- C9 amended: over positionally zipped pairs, `compare_comparisons` returns
SAME iff in every pair neither side is strictly less than the other; BETTER
iff no new comparison is strictly below its old counterpart and at least one
old is strictly below its new one; WORSE in the mirrored case; MIXED
otherwise. -/
theorem C9_amended_verdicts (os ns : List PyFix.RuntimeComparison)
    (h : os.length = ns.length) :
    (PyFix.compare_comparisons os ns = PyFix.Effect.SAME ↔
      ∀ p ∈ os.zip ns, p.1.lt p.2 = false ∧ p.2.lt p.1 = false) ∧
    (PyFix.compare_comparisons os ns = PyFix.Effect.BETTER ↔
      ((∀ p ∈ os.zip ns, p.2.lt p.1 = false) ∧ ∃ p ∈ os.zip ns, p.1.lt p.2 = true)) ∧
    (PyFix.compare_comparisons os ns = PyFix.Effect.WORSE ↔
      ((∀ p ∈ os.zip ns, p.1.lt p.2 = false) ∧ ∃ p ∈ os.zip ns, p.2.lt p.1 = true)) ∧
    (PyFix.compare_comparisons os ns = PyFix.Effect.MIXED ↔
      ((∃ p ∈ os.zip ns, p.1.lt p.2 = true) ∧ ∃ p ∈ os.zip ns, p.2.lt p.1 = true)) := by
  have hco : PyFix.compare_comparisons os ns =
      (if (os.zip ns).countP (fun p => p.1.lt p.2) +
            (os.zip ns).countP (fun p => p.2.lt p.1) = 0
        then PyFix.Effect.SAME
        else if (os.zip ns).countP (fun p => p.2.lt p.1) = 0 then PyFix.Effect.BETTER
        else if (os.zip ns).countP (fun p => p.1.lt p.2) = 0 then PyFix.Effect.WORSE
        else PyFix.Effect.MIXED) := by
    simp only [PyFix.compare_comparisons, beq_iff_eq]
  have hallb : ((os.zip ns).countP (fun p => p.1.lt p.2) = 0) ↔
      ∀ p ∈ os.zip ns, p.1.lt p.2 = false := by
    rw [List.countP_eq_zero]
    simp only [Bool.not_eq_true]
  have hallw : ((os.zip ns).countP (fun p => p.2.lt p.1) = 0) ↔
      ∀ p ∈ os.zip ns, p.2.lt p.1 = false := by
    rw [List.countP_eq_zero]
    simp only [Bool.not_eq_true]
  have hexb : (0 < (os.zip ns).countP (fun p => p.1.lt p.2)) ↔
      ∃ p ∈ os.zip ns, p.1.lt p.2 = true := List.countP_pos_iff
  have hexw : (0 < (os.zip ns).countP (fun p => p.2.lt p.1)) ↔
      ∃ p ∈ os.zip ns, p.2.lt p.1 = true := List.countP_pos_iff
  rcases Nat.eq_zero_or_pos ((os.zip ns).countP (fun p => p.1.lt p.2)) with hb | hb <;>
    rcases Nat.eq_zero_or_pos ((os.zip ns).countP (fun p => p.2.lt p.1)) with hw | hw
  · rw [hb, hw, if_pos rfl] at hco
    refine ⟨iff_of_true hco (fun p hp => ⟨hallb.mp hb p hp, hallw.mp hw p hp⟩),
      iff_of_false (by rw [hco]; decide) ?_,
      iff_of_false (by rw [hco]; decide) ?_,
      iff_of_false (by rw [hco]; decide) ?_⟩
    · rintro ⟨-, p, hp, hlt⟩
      have hfalse := hallb.mp hb p hp
      rw [hlt] at hfalse
      exact Bool.noConfusion hfalse
    · rintro ⟨-, p, hp, hlt⟩
      have hfalse := hallw.mp hw p hp
      rw [hlt] at hfalse
      exact Bool.noConfusion hfalse
    · rintro ⟨⟨p, hp, hlt⟩, -⟩
      have hfalse := hallb.mp hb p hp
      rw [hlt] at hfalse
      exact Bool.noConfusion hfalse
  · have hw' := Nat.pos_iff_ne_zero.mp hw
    rw [hb, if_neg (by omega), if_neg hw', if_pos rfl] at hco
    refine ⟨iff_of_false (by rw [hco]; decide) ?_,
      iff_of_false (by rw [hco]; decide) ?_,
      iff_of_true hco ⟨hallb.mp hb, hexw.mp hw⟩,
      iff_of_false (by rw [hco]; decide) ?_⟩
    · intro hall
      obtain ⟨p, hp, hlt⟩ := hexw.mp hw
      have hfalse := (hall p hp).2
      rw [hlt] at hfalse
      exact Bool.noConfusion hfalse
    · rintro ⟨-, p, hp, hlt⟩
      have hfalse := hallb.mp hb p hp
      rw [hlt] at hfalse
      exact Bool.noConfusion hfalse
    · rintro ⟨⟨p, hp, hlt⟩, -⟩
      have hfalse := hallb.mp hb p hp
      rw [hlt] at hfalse
      exact Bool.noConfusion hfalse
  · have hb' := Nat.pos_iff_ne_zero.mp hb
    rw [hw, if_neg (by omega), if_pos rfl] at hco
    refine ⟨iff_of_false (by rw [hco]; decide) ?_,
      iff_of_true hco ⟨hallw.mp hw, hexb.mp hb⟩,
      iff_of_false (by rw [hco]; decide) ?_,
      iff_of_false (by rw [hco]; decide) ?_⟩
    · intro hall
      obtain ⟨p, hp, hlt⟩ := hexb.mp hb
      have hfalse := (hall p hp).1
      rw [hlt] at hfalse
      exact Bool.noConfusion hfalse
    · rintro ⟨-, p, hp, hlt⟩
      have hfalse := hallw.mp hw p hp
      rw [hlt] at hfalse
      exact Bool.noConfusion hfalse
    · rintro ⟨-, p, hp, hlt⟩
      have hfalse := hallw.mp hw p hp
      rw [hlt] at hfalse
      exact Bool.noConfusion hfalse
  · have hb' := Nat.pos_iff_ne_zero.mp hb
    have hw' := Nat.pos_iff_ne_zero.mp hw
    rw [if_neg (by omega), if_neg hw', if_neg hb'] at hco
    refine ⟨iff_of_false (by rw [hco]; decide) ?_,
      iff_of_false (by rw [hco]; decide) ?_,
      iff_of_false (by rw [hco]; decide) ?_,
      iff_of_true hco ⟨hexb.mp hb, hexw.mp hw⟩⟩
    · intro hall
      obtain ⟨p, hp, hlt⟩ := hexb.mp hb
      have hfalse := (hall p hp).1
      rw [hlt] at hfalse
      exact Bool.noConfusion hfalse
    · rintro ⟨hall, -⟩
      obtain ⟨p, hp, hlt⟩ := hexw.mp hw
      have hfalse := hall p hp
      rw [hlt] at hfalse
      exact Bool.noConfusion hfalse
    · rintro ⟨hall, -⟩
      obtain ⟨p, hp, hlt⟩ := hexb.mp hb
      have hfalse := hall p hp
      rw [hlt] at hfalse
      exact Bool.noConfusion hfalse

/-- Witness for `C9_amended_verdicts` at two concrete equal-length batteries. -/
theorem C9_amended_verdicts_witness :
    c9wO.length = c9wN.length ∧
    (PyFix.compare_comparisons c9wO c9wN = PyFix.Effect.SAME ↔
      ∀ p ∈ c9wO.zip c9wN, p.1.lt p.2 = false ∧ p.2.lt p.1 = false) :=
  ⟨rfl, (C9_amended_verdicts c9wO c9wN rfl).1⟩

/-- Splitting the aligned-pair list splits the alignment loop. -/
theorem alignFold_append (sT dT : PyFix.TraceResult) (st : PyFix.AlignState)
    (l1 l2 : List (Nat × Nat)) :
    PyFix.alignFold sT dT st (l1 ++ l2) =
      PyFix.alignFold sT dT (PyFix.alignFold sT dT st l1) l2 := by
  induction l1 generalizing st with
  | nil => rfl
  | cons p l ih => simp [PyFix.alignFold, ih]

/-- The alignment loop preserves the length of the source-side metadata array. -/
theorem alignFold_srcMap_length (sT dT : PyFix.TraceResult) (ps : List (Nat × Nat))
    (st : PyFix.AlignState) :
    (PyFix.alignFold sT dT st ps).srcMap.length = st.srcMap.length := by
  induction ps generalizing st with
  | nil => rfl
  | cons p l ih =>
    rw [PyFix.alignFold, ih]
    simp [PyFix.applyAlignedPair]

/-- The alignment loop preserves the length of the dest-side metadata array. -/
theorem alignFold_dstMap_length (sT dT : PyFix.TraceResult) (ps : List (Nat × Nat))
    (st : PyFix.AlignState) :
    (PyFix.alignFold sT dT st ps).dstMap.length = st.dstMap.length := by
  induction ps generalizing st with
  | nil => rfl
  | cons p l ih =>
    rw [PyFix.alignFold, ih]
    simp [PyFix.applyAlignedPair]

/-- A source-side metadata slot not named by any aligned pair is untouched. -/
theorem alignFold_srcMap_untouched (sT dT : PyFix.TraceResult) (i : Nat)
    (ps : List (Nat × Nat)) (st : PyFix.AlignState) (h : ∀ q ∈ ps, q.1 ≠ i) :
    (PyFix.alignFold sT dT st ps).srcMap[i]? = st.srcMap[i]? := by
  induction ps generalizing st with
  | nil => rfl
  | cons p l ih =>
    rw [PyFix.alignFold, ih _ (fun q hq => h q (List.mem_cons_of_mem _ hq))]
    have hne : p.1 ≠ i := h p (List.mem_cons_self p l)
    simp [PyFix.applyAlignedPair, List.getElem?_set_ne hne]

/-- A dest-side metadata slot not named by any aligned pair is untouched. -/
theorem alignFold_dstMap_untouched (sT dT : PyFix.TraceResult) (i : Nat)
    (ps : List (Nat × Nat)) (st : PyFix.AlignState) (h : ∀ q ∈ ps, q.2 ≠ i) :
    (PyFix.alignFold sT dT st ps).dstMap[i]? = st.dstMap[i]? := by
  induction ps generalizing st with
  | nil => rfl
  | cons p l ih =>
    rw [PyFix.alignFold, ih _ (fun q hq => h q (List.mem_cons_of_mem _ hq))]
    have hne : p.2 ≠ i := h p (List.mem_cons_self p l)
    simp [PyFix.applyAlignedPair, List.getElem?_set_ne hne]

/-- When `lastMatch` finds nothing, no aligned pair's values match. -/
theorem lastMatch_eq_none (sT dT : PyFix.TraceResult) (ps : List (Nat × Nat)) :
    PyFix.lastMatch sT dT ps = none →
      ∀ p ∈ ps, PyFix.valueMatchAt sT dT p.1 p.2 = false := by
  induction ps with
  | nil => intro _ p hp; cases hp
  | cons p l ih =>
    intro h q hq
    rw [PyFix.lastMatch] at h
    rcases hlm : PyFix.lastMatch sT dT l with _ | r
    · rw [hlm] at h
      rcases List.mem_cons.mp hq with rfl | hql
      · cases hvm : PyFix.valueMatchAt sT dT q.1 q.2
        · rfl
        · rw [if_pos hvm] at h
          cases h
      · exact ih hlm q hql
    · rw [hlm] at h
      cases h

/-- The cursors after the alignment loop are those of the last matching pair,
falling back to the incoming cursors when no pair matched. -/
theorem alignFold_cursor (sT dT : PyFix.TraceResult) (ps : List (Nat × Nat))
    (st : PyFix.AlignState) :
    ((PyFix.alignFold sT dT st ps).last_matching_val_source,
      (PyFix.alignFold sT dT st ps).last_matching_val_dest) =
      (PyFix.lastMatch sT dT ps).getD
        (st.last_matching_val_source, st.last_matching_val_dest) := by
  induction ps generalizing st with
  | nil => rfl
  | cons p l ih =>
    rw [PyFix.alignFold, ih, PyFix.lastMatch]
    rcases hlm : PyFix.lastMatch sT dT l with _ | q
    · cases hm : PyFix.valueMatchAt sT dT p.1 p.2 <;>
        simp [PyFix.applyAlignedPair, hm]
    · simp

/-- On a pair list strictly increasing in both coordinates, `lastMatch` finds
a matching pair that dominates every matching pair. -/
theorem lastMatch_spec (sT dT : PyFix.TraceResult) (ps : List (Nat × Nat))
    (q : Nat × Nat) :
    ps.Pairwise (fun p r => p.1 < r.1 ∧ p.2 < r.2) →
      PyFix.lastMatch sT dT ps = some q →
      q ∈ ps ∧ PyFix.valueMatchAt sT dT q.1 q.2 = true ∧
        ∀ p ∈ ps, PyFix.valueMatchAt sT dT p.1 p.2 = true → p.1 ≤ q.1 ∧ p.2 ≤ q.2 := by
  induction ps with
  | nil => intro _ h; cases h
  | cons p l ih =>
    intro hmono h
    rcases List.pairwise_cons.mp hmono with ⟨hpl, hl⟩
    rw [PyFix.lastMatch] at h
    rcases hlm : PyFix.lastMatch sT dT l with _ | r
    · rw [hlm] at h
      cases hm : PyFix.valueMatchAt sT dT p.1 p.2 with
      | false => rw [if_neg (by simp [hm])] at h; cases h
      | true =>
        rw [if_pos hm] at h
        injection h with h
        subst h
        refine ⟨List.mem_cons_self _ _, hm, ?_⟩
        intro r hr hmr
        rcases List.mem_cons.mp hr with rfl | hrl
        · exact ⟨Nat.le_refl _, Nat.le_refl _⟩
        · have hfalse := lastMatch_eq_none sT dT l hlm r hrl
          rw [hmr] at hfalse
          cases hfalse
    · rw [hlm] at h
      injection h with h
      subst h
      obtain ⟨hqmem, hqm, hqmax⟩ := ih hl hlm
      refine ⟨List.mem_cons_of_mem _ hqmem, hqm, ?_⟩
      intro r' hr' hmr'
      rcases List.mem_cons.mp hr' with rfl | hrl
      · have hlt := hpl _ hqmem
        exact ⟨Nat.le_of_lt hlt.1, Nat.le_of_lt hlt.2⟩
      · exact hqmax r' hrl hmr'

/-- The source-side slot of a processed pair holds exactly the value-match
verdict, provided the slot is in bounds and held the default record before. -/
theorem applyAlignedPair_srcMap_at (sT dT : PyFix.TraceResult)
    (st : PyFix.AlignState) (p : Nat × Nat) (hlen : p.1 < st.srcMap.length)
    (hprior : (st.srcMap[p.1]?).getD default = default) :
    ((PyFix.applyAlignedPair sT dT st p).srcMap[p.1]?).map
        (fun r => r.value_matches) = some (PyFix.valueMatchAt sT dT p.1 p.2) := by
  have hdef : (default : PyFix.RuntimeOpMappingData).value_matches = false := rfl
  cases hm : PyFix.valueMatchAt sT dT p.1 p.2 <;>
    simp [PyFix.applyAlignedPair, hm, hprior, hdef, List.getElem?_set_self hlen]

/-- The dest-side slot of a processed pair holds exactly the value-match
verdict, provided the slot is in bounds and held the default record before. -/
theorem applyAlignedPair_dstMap_at (sT dT : PyFix.TraceResult)
    (st : PyFix.AlignState) (p : Nat × Nat) (hlen : p.2 < st.dstMap.length)
    (hprior : (st.dstMap[p.2]?).getD default = default) :
    ((PyFix.applyAlignedPair sT dT st p).dstMap[p.2]?).map
        (fun r => r.value_matches) = some (PyFix.valueMatchAt sT dT p.1 p.2) := by
  have hdef : (default : PyFix.RuntimeOpMappingData).value_matches = false := rfl
  cases hm : PyFix.valueMatchAt sT dT p.1 p.2 <;>
    simp [PyFix.applyAlignedPair, hm, hprior, hdef, List.getElem?_set_self hlen]

/-- C8: for every pair of traces and every LCS alignment (aligned index pairs
strictly increasing in both coordinates and in bounds), after
`RuntimeComparison` construction every aligned pair's `value_matches` is true
exactly when both sides pushed the same non-empty value list, and whenever
some aligned pair's values matched, the cursor pair
`(last_matching_val_source, last_matching_val_dest)` is the largest aligned
pair whose values matched. -/
theorem C8_value_match_and_cursor (sT dT : PyFix.TraceResult)
    (ps : List (Nat × Nat))
    (hmono : ps.Pairwise (fun p r => p.1 < r.1 ∧ p.2 < r.2))
    (hsb : ∀ p ∈ ps, p.1 < sT.ops_list.length)
    (hdb : ∀ p ∈ ps, p.2 < dT.ops_list.length) :
    (∀ p ∈ ps,
      (((PyFix.mkRuntimeComparison sT dT ps).source_runtime_mapping_to_dest[p.1]?).map
          (fun r => r.value_matches) = some (PyFix.valueMatchAt sT dT p.1 p.2)) ∧
      (((PyFix.mkRuntimeComparison sT dT ps).dest_runtime_mapping_to_source[p.2]?).map
          (fun r => r.value_matches) = some (PyFix.valueMatchAt sT dT p.1 p.2))) ∧
    ((∃ p ∈ ps, PyFix.valueMatchAt sT dT p.1 p.2 = true) →
      ((PyFix.mkRuntimeComparison sT dT ps).last_matching_val_source,
        (PyFix.mkRuntimeComparison sT dT ps).last_matching_val_dest) ∈ ps ∧
      PyFix.valueMatchAt sT dT
        (PyFix.mkRuntimeComparison sT dT ps).last_matching_val_source
        (PyFix.mkRuntimeComparison sT dT ps).last_matching_val_dest = true ∧
      ∀ p ∈ ps, PyFix.valueMatchAt sT dT p.1 p.2 = true →
        p.1 ≤ (PyFix.mkRuntimeComparison sT dT ps).last_matching_val_source ∧
        p.2 ≤ (PyFix.mkRuntimeComparison sT dT ps).last_matching_val_dest) := by
  have hsrc : (PyFix.mkRuntimeComparison sT dT ps).source_runtime_mapping_to_dest =
      (PyFix.alignFold sT dT (PyFix.initAlignState sT dT) ps).srcMap := rfl
  have hdst : (PyFix.mkRuntimeComparison sT dT ps).dest_runtime_mapping_to_source =
      (PyFix.alignFold sT dT (PyFix.initAlignState sT dT) ps).dstMap := rfl
  have hcs : (PyFix.mkRuntimeComparison sT dT ps).last_matching_val_source =
      (PyFix.alignFold sT dT (PyFix.initAlignState sT dT) ps).last_matching_val_source := rfl
  have hcd : (PyFix.mkRuntimeComparison sT dT ps).last_matching_val_dest =
      (PyFix.alignFold sT dT (PyFix.initAlignState sT dT) ps).last_matching_val_dest := rfl
  constructor
  · intro p hp
    obtain ⟨l1, l2, hsplit⟩ := List.append_of_mem hp
    subst hsplit
    have hparts := List.pairwise_append.mp hmono
    have hcross := hparts.2.2
    have htail := List.pairwise_cons.mp hparts.2.1
    have hl1ne : ∀ q ∈ l1, q.1 ≠ p.1 :=
      fun q hq => Nat.ne_of_lt (hcross q hq p (List.mem_cons_self _ _)).1
    have hl1ne' : ∀ q ∈ l1, q.2 ≠ p.2 :=
      fun q hq => Nat.ne_of_lt (hcross q hq p (List.mem_cons_self _ _)).2
    have hl2ne : ∀ q ∈ l2, q.1 ≠ p.1 :=
      fun q hq => (Nat.ne_of_lt (htail.1 q hq).1).symm
    have hl2ne' : ∀ q ∈ l2, q.2 ≠ p.2 :=
      fun q hq => (Nat.ne_of_lt (htail.1 q hq).2).symm
    have hrw : PyFix.alignFold sT dT (PyFix.initAlignState sT dT) (l1 ++ p :: l2) =
        PyFix.alignFold sT dT
          (PyFix.applyAlignedPair sT dT
            (PyFix.alignFold sT dT (PyFix.initAlignState sT dT) l1) p) l2 := by
      rw [alignFold_append]
      rfl
    have hslen : (PyFix.alignFold sT dT (PyFix.initAlignState sT dT) l1).srcMap.length =
        sT.ops_list.length := by
      rw [alignFold_srcMap_length]
      simp [PyFix.initAlignState]
    have hdlen : (PyFix.alignFold sT dT (PyFix.initAlignState sT dT) l1).dstMap.length =
        dT.ops_list.length := by
      rw [alignFold_dstMap_length]
      simp [PyFix.initAlignState]
    have hpb : p.1 < sT.ops_list.length := hsb p (by simp)
    have hpb' : p.2 < dT.ops_list.length := hdb p (by simp)
    have hsprior : (((PyFix.alignFold sT dT (PyFix.initAlignState sT dT)
        l1).srcMap)[p.1]?).getD default = default := by
      rw [alignFold_srcMap_untouched sT dT p.1 l1 _ hl1ne]
      show ((List.replicate sT.ops_list.length default)[p.1]?).getD default = default
      rw [List.getElem?_replicate]
      split <;> rfl
    have hdprior : (((PyFix.alignFold sT dT (PyFix.initAlignState sT dT)
        l1).dstMap)[p.2]?).getD default = default := by
      rw [alignFold_dstMap_untouched sT dT p.2 l1 _ hl1ne']
      show ((List.replicate dT.ops_list.length default)[p.2]?).getD default = default
      rw [List.getElem?_replicate]
      split <;> rfl
    constructor
    · rw [hsrc, hrw, alignFold_srcMap_untouched sT dT p.1 l2 _ hl2ne]
      exact applyAlignedPair_srcMap_at sT dT _ p (by rw [hslen]; exact hpb) hsprior
    · rw [hdst, hrw, alignFold_dstMap_untouched sT dT p.2 l2 _ hl2ne']
      exact applyAlignedPair_dstMap_at sT dT _ p (by rw [hdlen]; exact hpb') hdprior
  · intro hex
    have hcur := alignFold_cursor sT dT ps (PyFix.initAlignState sT dT)
    rcases hlm : PyFix.lastMatch sT dT ps with _ | q
    · obtain ⟨p, hp, hm⟩ := hex
      have hfalse := lastMatch_eq_none sT dT ps hlm p hp
      rw [hm] at hfalse
      cases hfalse
    · rw [hlm] at hcur
      obtain ⟨hqmem, hqm, hqmax⟩ := lastMatch_spec sT dT ps q hmono hlm
      have h1 : (PyFix.mkRuntimeComparison sT dT ps).last_matching_val_source = q.1 := by
        rw [hcs]
        exact congrArg Prod.fst hcur
      have h2 : (PyFix.mkRuntimeComparison sT dT ps).last_matching_val_dest = q.2 := by
        rw [hcd]
        exact congrArg Prod.snd hcur
      refine ⟨?_, ?_, ?_⟩
      · rw [h1, h2]
        exact hqmem
      · rw [h1, h2]
        exact hqm
      · intro p hp hm
        rw [h1, h2]
        exact hqmax p hp hm

/-- Witness for `C8_value_match_and_cursor` at a concrete pair of traces and
a concrete strictly increasing alignment. -/
theorem C8_value_match_and_cursor_witness :
    PyFix.c8wPairs.Pairwise (fun p r => p.1 < r.1 ∧ p.2 < r.2) ∧
    (∀ p ∈ PyFix.c8wPairs, p.1 < PyFix.c8wTrace.ops_list.length) ∧
    (∀ p ∈ PyFix.c8wPairs, p.2 < PyFix.c8wTrace.ops_list.length) ∧
    ((∃ p ∈ PyFix.c8wPairs,
        PyFix.valueMatchAt PyFix.c8wTrace PyFix.c8wTrace p.1 p.2 = true) →
      ((PyFix.mkRuntimeComparison PyFix.c8wTrace PyFix.c8wTrace
          PyFix.c8wPairs).last_matching_val_source,
        (PyFix.mkRuntimeComparison PyFix.c8wTrace PyFix.c8wTrace
          PyFix.c8wPairs).last_matching_val_dest) ∈ PyFix.c8wPairs ∧
      PyFix.valueMatchAt PyFix.c8wTrace PyFix.c8wTrace
        (PyFix.mkRuntimeComparison PyFix.c8wTrace PyFix.c8wTrace
          PyFix.c8wPairs).last_matching_val_source
        (PyFix.mkRuntimeComparison PyFix.c8wTrace PyFix.c8wTrace
          PyFix.c8wPairs).last_matching_val_dest = true ∧
      ∀ p ∈ PyFix.c8wPairs,
        PyFix.valueMatchAt PyFix.c8wTrace PyFix.c8wTrace p.1 p.2 = true →
          p.1 ≤ (PyFix.mkRuntimeComparison PyFix.c8wTrace PyFix.c8wTrace
            PyFix.c8wPairs).last_matching_val_source ∧
          p.2 ≤ (PyFix.mkRuntimeComparison PyFix.c8wTrace PyFix.c8wTrace
            PyFix.c8wPairs).last_matching_val_dest) :=
  ⟨by decide, by decide, by decide,
    (C8_value_match_and_cursor PyFix.c8wTrace PyFix.c8wTrace PyFix.c8wPairs
      (by decide) (by decide) (by decide)).2⟩

/-- C10: `compare_comparisons` inspects only the positional pairs up to the
length of the shorter input list (surplus comparisons never influence the
verdict), and in particular any battery of old comparisons paired with an
empty list of new comparisons yields SAME. -/
theorem C10_truncation_and_empty :
    (∀ os ns : List PyFix.RuntimeComparison,
      PyFix.compare_comparisons os ns =
        PyFix.compare_comparisons (os.take (min os.length ns.length))
          (ns.take (min os.length ns.length))) ∧
    (∀ os : List PyFix.RuntimeComparison,
      PyFix.compare_comparisons os [] = PyFix.Effect.SAME) := by
  constructor
  · intro os ns
    unfold PyFix.compare_comparisons
    rw [zip_take_min os ns]
  · intro os
    simp [PyFix.compare_comparisons]

/-! ## Claim theorems for the edit-script generator -/

/-- C1: `generate_edit_script` returns normally exactly when the printable
form of its working copy of the source tree, after all staged mutations of
all phases, equals the printable form of the dest tree; whenever the two
printable forms differ it raises the consistency error instead of returning
an edit script. -/
theorem C1_consistency_check (source_tree dest_tree : PyFix.Arena)
    (sroot droot : String) (m : List (String × String)) :
    (PyFix.generate_edit_script source_tree dest_tree sroot droot m).isOk = true ↔
      PyFix.renderTree (PyFix.runPhases source_tree dest_tree sroot droot m).src
          sroot = PyFix.renderTree dest_tree droot := by
  unfold PyFix.generate_edit_script
  dsimp only
  split
  next hb =>
    constructor
    · intro _
      exact beq_iff_eq.mp hb
    · intro _
      rfl
  next hb =>
    constructor
    · intro habs
      exact Bool.noConfusion habs
    · intro heq
      exact absurd (beq_iff_eq.mpr heq) hb

/-- C3: on the concrete failing input, the UPDATE branch of
`Edit.apply_edit` leaves the subject node's contents unchanged (name still
`x`) although the donor identified by `new_node_id` has name `y`: the
replacement is looked up via the subject's own id, not via `new_node_id`,
contradicting the claimed (and specified) donor lookup. -/
theorem C3_update_reads_subject_id :
    (PyFix.ex3edit.apply_edit PyFix.ex3arena).toOption.bind
        (fun a => (PyFix.lookupNode a "a3").map (fun n => n.name)) = some "x" ∧
      (PyFix.lookupNode PyFix.ex3arena "b3").map (fun n => n.name) = some "y" ∧
      PyFix.ex3edit.new_node_id = some "b3" := by
  refine ⟨rfl, rfl, rfl⟩

/-- C2 counterexample: on a mapped input whose list children are reordered
and one of them also updated, the generator returns normally, yet the script
it returns carries an UPDATE edit after an ALIGN edit, so the stage labels
are not non-decreasing in the claimed order. -/
theorem C2_counterexample :
    (PyFix.generate_edit_script PyFix.ex2src PyFix.ex2dst "r" "R"
        PyFix.ex2map).isOk = true ∧
      PyFix.ex2script.map (fun e => PyFix.stageIdx e.stage) = [2, 0] ∧
      ¬ PyFix.StagesNonDecreasing PyFix.ex2script := by
  refine ⟨rfl, rfl, ?_⟩
  decide

/-- C4 counterexample: after running the generator on two formal parameters
both renamed to the same destination identifier, the returned source→dest
rename map contains `("x", "y")` but the dest→source map does not contain
`("y", "x")` (the second rename overwrote it), so the maps are not symmetric. -/
theorem C4_counterexample :
    (PyFix.generate_edit_script PyFix.ex4src PyFix.ex4dst "r" "R"
        PyFix.ex4map).isOk = true ∧
      ("x", "y") ∈ PyFix.ex4state.var_s2d ∧
      ("y", "x") ∉ PyFix.ex4state.var_d2s := by
  refine ⟨rfl, ?_, ?_⟩ <;> decide

/-- C5 counterexample: the generator emits an UPDATE edit with
`is_rename = true` for a corresponded pair of `Name` nodes in load context,
although the claim says a `Name` pair whose context is not a store does not
constitute a rename. -/
theorem C5_counterexample :
    (PyFix.generate_edit_script PyFix.ex5src PyFix.ex5dst "r" "R"
        PyFix.ex5map).isOk = true ∧
      ∃ e ∈ PyFix.ex5script, e.action = PyFix.Action.UPDATE ∧
        e.is_rename = true ∧
        PyFix.c5RenameCondB PyFix.ex5src PyFix.ex5dst e = false := by
  refine ⟨rfl, ?_⟩
  decide

/-- C5 amended: an update of corresponded nodes is flagged as a rename
(`is_rename = true`) iff both nodes have kind `Name` — in any context — or
both have kind `arg`; the store-context condition only gates the rename-map
update, so a `Name` pair that is not in store context leaves both rename maps
unchanged. -/
theorem C5_amended_rename_verdict (varS varD : List (String × String))
    (s d : PyFix.MNode) :
    ((PyFix.is_update_variable_rename varS varD s d).1.1 = true ↔
      ((s.kind = "Name" ∧ d.kind = "Name") ∨ (s.kind = "arg" ∧ d.kind = "arg"))) ∧
    ((s.kind = "Name" ∧ d.kind = "Name" ∧
        ¬(s.ctx = some "Store" ∧ d.ctx = some "Store")) →
      (PyFix.is_update_variable_rename varS varD s d).2.1 = varS ∧
        (PyFix.is_update_variable_rename varS varD s d).2.2 = varD) := by
  by_cases h1 : s.kind = "Name" <;> by_cases h2 : d.kind = "Name" <;>
    by_cases h3 : s.kind = "arg" <;> by_cases h4 : d.kind = "arg" <;>
      by_cases h5 : s.ctx = some "Store" <;> by_cases h6 : d.ctx = some "Store" <;>
        simp_all [PyFix.is_update_variable_rename]
  all_goals (split <;> simp)

/-- Sequencing two transformers that append only coarse phase `k` appends
only coarse phase `k`. -/
theorem appendsOnly_comp (k : Nat) (f g : PyFix.GenState → PyFix.GenState)
    (hf : PyFix.AppendsOnly k f) (hg : PyFix.AppendsOnly k g) :
    PyFix.AppendsOnly k (fun st => g (f st)) := by
  intro st
  obtain ⟨t1, h1, h1s⟩ := hf st
  obtain ⟨t2, h2, h2s⟩ := hg (f st)
  refine ⟨t1 ++ t2, ?_, ?_⟩
  · rw [h2, h1, List.append_assoc]
  · intro e he
    rcases List.mem_append.mp he with h | h
    · exact h1s e h
    · exact h2s e h

/-- Folding a family of transformers that append only coarse phase `k`
appends only coarse phase `k`. -/
theorem appendsOnly_foldl {α : Type} (k : Nat)
    (f : PyFix.GenState → α → PyFix.GenState)
    (hf : ∀ x, PyFix.AppendsOnly k (fun st => f st x)) :
    ∀ l : List α, PyFix.AppendsOnly k (fun st => l.foldl f st) := by
  intro l
  induction l with
  | nil => intro st; exact ⟨[], (List.append_nil _).symm, fun e he => absurd he (List.not_mem_nil e)⟩
  | cons x xs ih =>
    intro st
    obtain ⟨t1, h1, h1s⟩ := hf x st
    obtain ⟨t2, h2, h2s⟩ := ih (f st x)
    refine ⟨t1 ++ t2, ?_, ?_⟩
    · dsimp only at h1 h2 ⊢
      show (List.foldl f (f st x) xs).script = st.script ++ (t1 ++ t2)
      rw [h2, h1, List.append_assoc]
    · intro e he
      rcases List.mem_append.mp he with h | h
      · exact h1s e h
      · exact h2s e h

set_option maxHeartbeats 2000000 in
/-- The UPDATE step appends only walk-phase edits. -/
theorem updateStep_appendsOnly (dst : PyFix.Arena) (s_i d_i : String) :
    PyFix.AppendsOnly 0 (fun st => PyFix.updateStep dst st s_i d_i) := by
  intro st
  unfold PyFix.updateStep
  dsimp only
  repeat' first
    | exact ⟨[], (List.append_nil _).symm, fun e he => absurd he (List.not_mem_nil e)⟩
    | (refine ⟨_, rfl, ?_⟩
       intro e he
       rw [List.mem_singleton] at he
       subst he
       rfl)
    | split

set_option maxHeartbeats 2000000 in
/-- The ALIGN_KEYS step appends only walk-phase edits. -/
theorem alignKeysStep_appendsOnly (dst : PyFix.Arena) (s_i d_i : String) :
    PyFix.AppendsOnly 0 (fun st => PyFix.alignKeysStep dst st s_i d_i) := by
  intro st
  unfold PyFix.alignKeysStep
  dsimp only
  repeat' first
    | exact ⟨[], (List.append_nil _).symm, fun e he => absurd he (List.not_mem_nil e)⟩
    | (refine ⟨_, rfl, ?_⟩
       intro e he
       rw [List.mem_singleton] at he
       subst he
       rfl)
    | split

set_option maxHeartbeats 2000000 in
/-- The ALIGN step appends only walk-phase edits. -/
theorem alignListStep_appendsOnly (dst : PyFix.Arena) (s_i d_i : String) :
    PyFix.AppendsOnly 0 (fun st => PyFix.alignListStep dst st s_i d_i) := by
  intro st
  unfold PyFix.alignListStep
  dsimp only
  split
  all_goals try exact ⟨[], (List.append_nil _).symm, fun e he => absurd he (List.not_mem_nil e)⟩
  split
  all_goals try exact ⟨[], (List.append_nil _).symm, fun e he => absurd he (List.not_mem_nil e)⟩
  exact (appendsOnly_foldl 0 _ (fun idx => by
    intro st'
    dsimp only
    split
    · refine ⟨_, rfl, ?_⟩
      intro e he
      rw [List.mem_singleton] at he
      subst he
      rfl
    · exact ⟨[], (List.append_nil _).symm, fun e he => absurd he (List.not_mem_nil e)⟩) _) st

/-- Processing one node in the combined walk appends only walk-phase edits. -/
theorem processUpdateAlign_appendsOnly (dst : PyFix.Arena) (s_i : String) :
    PyFix.AppendsOnly 0 (fun st => PyFix.processUpdateAlign dst st s_i) := by
  intro st
  unfold PyFix.processUpdateAlign
  dsimp only
  split
  · exact ⟨[], (List.append_nil _).symm, fun e he => absurd he (List.not_mem_nil e)⟩
  · rename_i d_i heq
    exact (appendsOnly_comp 0 _ _
      (appendsOnly_comp 0 _ _ (updateStep_appendsOnly dst s_i d_i)
        (alignKeysStep_appendsOnly dst s_i d_i))
      (alignListStep_appendsOnly dst s_i d_i)) st

/-- The whole combined walk appends only walk-phase edits. -/
theorem walkNode_appendsOnly (dst : PyFix.Arena) (fuel : Nat) :
    ∀ s_i, PyFix.AppendsOnly 0 (fun st => PyFix.walkNode dst fuel st s_i) := by
  induction fuel with
  | zero =>
    intro s_i st
    exact ⟨[], by simp [PyFix.walkNode], by simp⟩
  | succ fuel ih =>
    intro s_i st
    obtain ⟨t1, h1, h1s⟩ := processUpdateAlign_appendsOnly dst s_i st
    obtain ⟨t2, h2, h2s⟩ :=
      (appendsOnly_foldl 0 (fun st c => PyFix.walkNode dst fuel st c) ih
        (PyFix.childrenOf (PyFix.processUpdateAlign dst st s_i).src s_i))
        (PyFix.processUpdateAlign dst st s_i)
    refine ⟨t1 ++ t2, ?_, ?_⟩
    · show (PyFix.walkNode dst (fuel+1) st s_i).script = st.script ++ (t1 ++ t2)
      have hw : PyFix.walkNode dst (fuel+1) st s_i =
          (PyFix.childrenOf (PyFix.processUpdateAlign dst st s_i).src s_i).foldl
            (fun st c => PyFix.walkNode dst fuel st c)
            (PyFix.processUpdateAlign dst st s_i) := rfl
      dsimp only at h1 h2
      rw [hw, h2, h1, List.append_assoc]
    · intro e he
      rcases List.mem_append.mp he with h | h
      · exact h1s e h
      · exact h2s e h

set_option maxHeartbeats 2000000 in
/-- `insert_based_on_dest_location` never touches the script and never
changes the stage of the edit it completes. -/
theorem ibdl_script_and_stage (dst : PyFix.Arena) (st : PyFix.GenState)
    (i : String) (e : PyFix.Edit) :
    (PyFix.insert_based_on_dest_location dst st i e).1.script = st.script ∧
      (PyFix.insert_based_on_dest_location dst st i e).2.stage = e.stage := by
  unfold PyFix.insert_based_on_dest_location
  dsimp only
  repeat' first
    | exact ⟨rfl, rfl⟩
    | split

/-- Placing a node at its dest-mirrored position and then emitting the
completed edit appends exactly that edit. -/
theorem appendsOnly_ibdl_then_emit (dst : PyFix.Arena) (i : String)
    (e0 : PyFix.Edit) :
    PyFix.AppendsOnly (PyFix.coarseStageIdx e0.stage) (fun st =>
      let res := PyFix.insert_based_on_dest_location dst st i e0
      { res.1 with script := res.1.script ++ [res.2] }) := by
  intro st
  obtain ⟨hscript, hstage'⟩ := ibdl_script_and_stage dst st i e0
  refine ⟨[(PyFix.insert_based_on_dest_location dst st i e0).2], ?_, ?_⟩
  · dsimp only
    rw [hscript]
  · intro e he
    rw [List.mem_singleton] at he
    subst he
    rw [hstage']

set_option maxHeartbeats 2000000 in
/-- One INSERT step appends only INSERT-phase edits. -/
theorem insertStepFor_appendsOnly (dst : PyFix.Arena) (d_i : String) :
    PyFix.AppendsOnly 1 (fun st => PyFix.insertStepFor dst st d_i) := by
  intro st
  unfold PyFix.insertStepFor
  dsimp only
  split
  · split
    · exact (appendsOnly_ibdl_then_emit dst d_i _) _
    · exact ⟨[], (List.append_nil _).symm, fun e he => absurd he (List.not_mem_nil e)⟩
  · exact ⟨[], (List.append_nil _).symm, fun e he => absurd he (List.not_mem_nil e)⟩

set_option maxHeartbeats 2000000 in
/-- One MOVE step appends only MOVE-phase edits. -/
theorem moveStepFor_appendsOnly (dst : PyFix.Arena) (d_i : String) :
    PyFix.AppendsOnly 2 (fun st => PyFix.moveStepFor dst st d_i) := by
  intro st
  unfold PyFix.moveStepFor
  dsimp only
  repeat' first
    | exact ⟨[], (List.append_nil _).symm, fun e he => absurd he (List.not_mem_nil e)⟩
    | exact (appendsOnly_ibdl_then_emit dst _ _) _
    | split

set_option maxHeartbeats 2000000 in
/-- One DELETE step appends only DELETE-phase edits. -/
theorem deleteStepFor_appendsOnly (s_i : String) :
    PyFix.AppendsOnly 3 (fun st => PyFix.deleteStepFor st s_i) := by
  intro st
  unfold PyFix.deleteStepFor
  dsimp only
  repeat' first
    | exact ⟨[], (List.append_nil _).symm, fun e he => absurd he (List.not_mem_nil e)⟩
    | (refine ⟨_, rfl, ?_⟩
       intro e he
       rw [List.mem_singleton] at he
       subst he
       rfl)
    | split

/-- The INSERT phase appends only INSERT-phase edits. -/
theorem insertPhase_appendsOnly (dst : PyFix.Arena) (droot : String) :
    PyFix.AppendsOnly 1 (fun st => PyFix.insertPhase dst droot st) := by
  intro st
  exact (appendsOnly_foldl 1 _ (fun d_i => insertStepFor_appendsOnly dst d_i) _) st

/-- The MOVE phase appends only MOVE-phase edits. -/
theorem movePhase_appendsOnly (dst : PyFix.Arena) (droot : String) :
    PyFix.AppendsOnly 2 (fun st => PyFix.movePhase dst droot st) := by
  intro st
  exact (appendsOnly_foldl 2 _ (fun d_i => moveStepFor_appendsOnly dst d_i) _) st

/-- The DELETE phase appends only DELETE-phase edits. -/
theorem deletePhase_appendsOnly (sroot : String) :
    PyFix.AppendsOnly 3 (fun st => PyFix.deletePhase sroot st) := by
  intro st
  exact (appendsOnly_foldl 3 _ (fun s_i => deleteStepFor_appendsOnly s_i)
    (PyFix.postorderAux st.src (st.src.length + 1) sroot)) st

/-- A list of edits sharing one coarse phase is pairwise monotone. -/
theorem pairwise_of_constant_coarse (l : List PyFix.Edit) (k : Nat)
    (h : ∀ e ∈ l, PyFix.coarseStageIdx e.stage = k) :
    l.Pairwise (fun e1 e2 =>
      PyFix.coarseStageIdx e1.stage ≤ PyFix.coarseStageIdx e2.stage) := by
  apply List.pairwise_of_forall_mem_list
  intro a ha b hb
  rw [h a ha, h b hb]

/-- Running four transformers that append only coarse phases 0, 1, 2, 3 in
order on a state with an empty script yields a coarse-monotone script. -/
theorem pairwise_coarse_of_phases (st0 : PyFix.GenState)
    (f1 f2 f3 f4 : PyFix.GenState → PyFix.GenState)
    (h1 : PyFix.AppendsOnly 0 f1) (h2 : PyFix.AppendsOnly 1 f2)
    (h3 : PyFix.AppendsOnly 2 f3) (h4 : PyFix.AppendsOnly 3 f4)
    (hempty : st0.script = []) :
    ((f4 (f3 (f2 (f1 st0)))).script).Pairwise (fun e1 e2 =>
      PyFix.coarseStageIdx e1.stage ≤ PyFix.coarseStageIdx e2.stage) := by
  obtain ⟨t0, g0, g0s⟩ := h1 st0
  obtain ⟨t1, g1, g1s⟩ := h2 (f1 st0)
  obtain ⟨t2, g2, g2s⟩ := h3 (f2 (f1 st0))
  obtain ⟨t3, g3, g3s⟩ := h4 (f3 (f2 (f1 st0)))
  rw [g3, g2, g1, g0, hempty, List.nil_append]
  have p01 : (t0 ++ t1).Pairwise (fun e1 e2 =>
      PyFix.coarseStageIdx e1.stage ≤ PyFix.coarseStageIdx e2.stage) := by
    refine List.pairwise_append.mpr
      ⟨pairwise_of_constant_coarse t0 0 g0s, pairwise_of_constant_coarse t1 1 g1s, ?_⟩
    intro a ha b hb
    rw [g0s a ha, g1s b hb]
    omega
  have p012 : ((t0 ++ t1) ++ t2).Pairwise (fun e1 e2 =>
      PyFix.coarseStageIdx e1.stage ≤ PyFix.coarseStageIdx e2.stage) := by
    refine List.pairwise_append.mpr
      ⟨p01, pairwise_of_constant_coarse t2 2 g2s, ?_⟩
    intro a ha b hb
    rcases List.mem_append.mp ha with h | h
    · rw [g0s a h, g2s b hb]
      omega
    · rw [g1s a h, g2s b hb]
      omega
  refine List.pairwise_append.mpr
    ⟨p012, pairwise_of_constant_coarse t3 3 g3s, ?_⟩
  intro a ha b hb
  rcases List.mem_append.mp ha with h | h
  · rcases List.mem_append.mp h with h' | h'
    · rw [g0s a h', g3s b hb]
      omega
    · rw [g1s a h', g3s b hb]
      omega
  · rw [g2s a h, g3s b hb]
    omega

/-- C2 amended: within the combined depth-first walk the stages UPDATE,
ALIGN_KEYS and ALIGN may interleave (the generator itself admits this and the
counterexample exhibits it), but the coarse phase order always holds: every
walk-stage edit precedes every INSERT edit, which precedes every MOVE edit,
which precedes every DELETE edit, so the script is non-decreasing in the
coarse phase index. -/
theorem C2_amended_coarse_monotonicity (source_tree dest_tree : PyFix.Arena)
    (sroot droot : String) (m : List (String × String)) :
    ((PyFix.runPhases source_tree dest_tree sroot droot m).script).Pairwise
      (fun e1 e2 => PyFix.coarseStageIdx e1.stage ≤ PyFix.coarseStageIdx e2.stage) :=
  pairwise_coarse_of_phases _ _ _ _ _
    (fun st => walkNode_appendsOnly dest_tree (source_tree.length + 1) sroot st)
    (insertPhase_appendsOnly dest_tree droot)
    (movePhase_appendsOnly dest_tree droot)
    (deletePhase_appendsOnly sroot)
    rfl

/-- Every member of a dict update is the new binding or an untouched binding
whose key differs from the updated key. -/
theorem dictSet_mem {β : Type} (m : List (String × β)) (k : String) (v : β) :
    ∀ p ∈ PyFix.dictSet m k v, p = (k, v) ∨ (p ∈ m ∧ p.1 ≠ k) := by
  intro p hp
  unfold PyFix.dictSet at hp
  split at hp
  · obtain ⟨q, hq, hfq⟩ := List.mem_map.mp hp
    by_cases hqk : q.1 = k
    · left
      have hbeq : (q.1 == k) = true := beq_iff_eq.mpr hqk
      simp only [hbeq, if_true] at hfq
      exact hfq.symm
    · right
      have hbeq : (q.1 == k) = false := beq_eq_false_iff_ne.mpr hqk
      simp only [hbeq, Bool.false_eq_true, if_false] at hfq
      subst hfq
      exact ⟨hq, hqk⟩
  · rcases List.mem_append.mp hp with h | h
    · right
      refine ⟨h, ?_⟩
      rename_i hfind
      intro hpk
      exact hfind (List.find?_isSome.mpr ⟨p, h, beq_iff_eq.mpr hpk⟩)
    · left
      simpa using h

/-- After a dict update the updated key is present. -/
theorem dictSet_key_mem {β : Type} (m : List (String × β)) (k : String) (v : β) :
    ∃ q ∈ PyFix.dictSet m k v, q.1 = k := by
  unfold PyFix.dictSet
  split
  · rename_i hfind
    obtain ⟨q0, hq0, hq0k⟩ := List.find?_isSome.mp hfind
    refine ⟨(k, v), ?_, rfl⟩
    refine List.mem_map.mpr ⟨q0, hq0, ?_⟩
    simp [hq0k]
  · refine ⟨(k, v), ?_, rfl⟩
    simp

/-- A dict update never removes a key. -/
theorem dictSet_keys_super {β : Type} (m : List (String × β)) (k : String) (v : β)
    (k' : String) (h : ∃ q ∈ m, q.1 = k') : ∃ q ∈ PyFix.dictSet m k v, q.1 = k' := by
  obtain ⟨q, hq, hqk⟩ := h
  by_cases hkk : k' = k
  · subst hkk
    exact dictSet_key_mem m _ v
  · unfold PyFix.dictSet
    split
    · refine ⟨q, List.mem_map.mpr ⟨q, hq, ?_⟩, hqk⟩
      have hbeq : (q.1 == k) = false :=
        beq_eq_false_iff_ne.mpr (by rw [hqk]; exact hkk)
      simp [hbeq]
    · exact ⟨q, List.mem_append.mpr (Or.inl hq), hqk⟩

/-- A dict update keeps the keys pairwise distinct. -/
theorem dictSet_keys_nodup {β : Type} (m : List (String × β)) (k : String) (v : β)
    (h : (m.map Prod.fst).Nodup) : ((PyFix.dictSet m k v).map Prod.fst).Nodup := by
  unfold PyFix.dictSet
  split
  · have hkeys : (m.map (fun p => if p.1 == k then (k, v) else p)).map Prod.fst =
        m.map Prod.fst := by
      rw [List.map_map]
      apply List.map_congr_left
      intro q _
      by_cases hqk : q.1 = k
      · simp [hqk]
      · simp [hqk]
    rw [hkeys]
    exact h
  · rename_i hfind
    have hk : k ∉ m.map Prod.fst := by
      intro hkmem
      obtain ⟨q, hq, hqk⟩ := List.mem_map.mp hkmem
      exact hfind (List.find?_isSome.mpr ⟨q, hq, beq_iff_eq.mpr hqk⟩)
    rw [List.map_append]
    simp only [List.map_cons, List.map_nil]
    rw [List.nodup_append]
    refine ⟨h, List.nodup_singleton k, ?_⟩
    intro a ha hak
    rw [List.mem_singleton] at hak
    subst hak
    exact hk ha

/-- The rename helper preserves the lock-step invariant and the key
uniqueness of the rename maps. -/
theorem ivr_preserves_inv (varS varD : List (String × String)) (s d : PyFix.MNode)
    (hL : PyFix.RenameLockStep varS varD) (hN : (varS.map Prod.fst).Nodup) :
    PyFix.RenameLockStep (PyFix.is_update_variable_rename varS varD s d).2.1
        (PyFix.is_update_variable_rename varS varD s d).2.2 ∧
      (((PyFix.is_update_variable_rename varS varD s d).2.1).map Prod.fst).Nodup := by
  unfold PyFix.is_update_variable_rename
  dsimp only
  repeat' first
    | exact ⟨hL, hN⟩
    | (refine ⟨?_, dictSet_keys_nodup _ _ _ hN⟩
       intro p hp
       rcases dictSet_mem _ _ _ p hp with rfl | ⟨hpm, -⟩
       · exact dictSet_key_mem _ _ _
       · exact dictSet_keys_super _ _ _ _ (hL p hpm))
    | split

/-- A transformer that keeps the variable maps preserves the rename
invariant. -/
theorem preservesRenameInv_of_keeps (f : PyFix.GenState → PyFix.GenState)
    (h : PyFix.KeepsVarMaps f) : PyFix.PreservesRenameInv f := by
  intro st hst
  obtain ⟨h1, h2⟩ := h st
  rw [h1, h2]
  exact hst

/-- Sequencing preserves the rename invariant. -/
theorem preservesRenameInv_comp (f g : PyFix.GenState → PyFix.GenState)
    (hf : PyFix.PreservesRenameInv f) (hg : PyFix.PreservesRenameInv g) :
    PyFix.PreservesRenameInv (fun st => g (f st)) :=
  fun st h => hg (f st) (hf st h)

/-- Folding a family of invariant-preserving transformers preserves the
rename invariant. -/
theorem preservesRenameInv_foldl {α : Type}
    (f : PyFix.GenState → α → PyFix.GenState)
    (hf : ∀ x, PyFix.PreservesRenameInv (fun st => f st x)) :
    ∀ l : List α, PyFix.PreservesRenameInv (fun st => l.foldl f st) := by
  intro l
  induction l with
  | nil => exact fun st h => h
  | cons x xs ih => exact fun st h => ih (f st x) (hf x st h)

/-- Folding a family of transformers that keep the variable maps keeps the
variable maps. -/
theorem keepsVarMaps_foldl {α : Type} (f : PyFix.GenState → α → PyFix.GenState)
    (hf : ∀ x, PyFix.KeepsVarMaps (fun st => f st x)) :
    ∀ l : List α, PyFix.KeepsVarMaps (fun st => l.foldl f st) := by
  intro l
  induction l with
  | nil => exact fun st => ⟨rfl, rfl⟩
  | cons x xs ih =>
    intro st
    obtain ⟨h1, h1'⟩ := hf x st
    obtain ⟨h2, h2'⟩ := ih (f st x)
    constructor
    · show (List.foldl f (f st x) xs).var_s2d = st.var_s2d
      dsimp only at h1 h2
      rw [h2, h1]
    · show (List.foldl f (f st x) xs).var_d2s = st.var_d2s
      dsimp only at h1' h2'
      rw [h2', h1']

set_option maxHeartbeats 1000000 in
/-- The ALIGN_KEYS step never touches the variable maps. -/
theorem alignKeysStep_keepsVarMaps (dst : PyFix.Arena) (s_i d_i : String) :
    PyFix.KeepsVarMaps (fun st => PyFix.alignKeysStep dst st s_i d_i) := by
  intro st
  unfold PyFix.alignKeysStep
  dsimp only
  repeat' first
    | exact ⟨rfl, rfl⟩
    | split

set_option maxHeartbeats 1000000 in
/-- The ALIGN step never touches the variable maps. -/
theorem alignListStep_keepsVarMaps (dst : PyFix.Arena) (s_i d_i : String) :
    PyFix.KeepsVarMaps (fun st => PyFix.alignListStep dst st s_i d_i) := by
  intro st
  unfold PyFix.alignListStep
  dsimp only
  split
  all_goals try exact ⟨rfl, rfl⟩
  split
  all_goals try exact ⟨rfl, rfl⟩
  exact (keepsVarMaps_foldl _ (fun idx => by
    intro st'
    dsimp only
    split
    · exact ⟨rfl, rfl⟩
    · exact ⟨rfl, rfl⟩) _) st

set_option maxHeartbeats 2000000 in
/-- `insert_based_on_dest_location` never touches the variable maps. -/
theorem ibdl_keepsVarMaps (dst : PyFix.Arena) (st : PyFix.GenState) (i : String)
    (e : PyFix.Edit) :
    (PyFix.insert_based_on_dest_location dst st i e).1.var_s2d = st.var_s2d ∧
      (PyFix.insert_based_on_dest_location dst st i e).1.var_d2s = st.var_d2s := by
  unfold PyFix.insert_based_on_dest_location
  dsimp only
  repeat' first
    | exact ⟨rfl, rfl⟩
    | split

/-- Placing a node and emitting the completed edit keeps the variable maps. -/
theorem keepsVarMaps_ibdl_then_emit (dst : PyFix.Arena) (i : String)
    (e0 : PyFix.Edit) :
    PyFix.KeepsVarMaps (fun st =>
      let res := PyFix.insert_based_on_dest_location dst st i e0
      { res.1 with script := res.1.script ++ [res.2] }) := by
  intro st
  obtain ⟨h1, h2⟩ := ibdl_keepsVarMaps dst st i e0
  exact ⟨h1, h2⟩

set_option maxHeartbeats 2000000 in
/-- One INSERT step never touches the variable maps. -/
theorem insertStepFor_keepsVarMaps (dst : PyFix.Arena) (d_i : String) :
    PyFix.KeepsVarMaps (fun st => PyFix.insertStepFor dst st d_i) := by
  intro st
  unfold PyFix.insertStepFor
  dsimp only
  repeat' first
    | exact ⟨rfl, rfl⟩
    | exact (keepsVarMaps_ibdl_then_emit dst _ _) _
    | split

set_option maxHeartbeats 2000000 in
/-- One MOVE step never touches the variable maps. -/
theorem moveStepFor_keepsVarMaps (dst : PyFix.Arena) (d_i : String) :
    PyFix.KeepsVarMaps (fun st => PyFix.moveStepFor dst st d_i) := by
  intro st
  unfold PyFix.moveStepFor
  dsimp only
  repeat' first
    | exact ⟨rfl, rfl⟩
    | exact (keepsVarMaps_ibdl_then_emit dst _ _) _
    | split

set_option maxHeartbeats 2000000 in
/-- One DELETE step never touches the variable maps. -/
theorem deleteStepFor_keepsVarMaps (s_i : String) :
    PyFix.KeepsVarMaps (fun st => PyFix.deleteStepFor st s_i) := by
  intro st
  unfold PyFix.deleteStepFor
  dsimp only
  repeat' first
    | exact ⟨rfl, rfl⟩
    | split

set_option maxHeartbeats 1000000 in
/-- The UPDATE step preserves the rename invariant (it is the only phase
that writes the rename maps, and it writes both directions in lock-step). -/
theorem updateStep_preservesRenameInv (dst : PyFix.Arena) (s_i d_i : String) :
    PyFix.PreservesRenameInv (fun st => PyFix.updateStep dst st s_i d_i) := by
  intro st hst
  obtain ⟨hL, hN⟩ := hst
  unfold PyFix.updateStep
  dsimp only
  repeat' first
    | exact ⟨hL, hN⟩
    | exact ivr_preserves_inv st.var_s2d st.var_d2s _ _ hL hN
    | split

/-- Processing one node in the combined walk preserves the rename invariant. -/
theorem processUpdateAlign_preservesRenameInv (dst : PyFix.Arena) (s_i : String) :
    PyFix.PreservesRenameInv (fun st => PyFix.processUpdateAlign dst st s_i) := by
  intro st h
  unfold PyFix.processUpdateAlign
  dsimp only
  split
  · exact h
  · rename_i d_i heq
    exact (preservesRenameInv_comp _ _
      (preservesRenameInv_comp _ _ (updateStep_preservesRenameInv dst s_i d_i)
        (preservesRenameInv_of_keeps _ (alignKeysStep_keepsVarMaps dst s_i d_i)))
      (preservesRenameInv_of_keeps _ (alignListStep_keepsVarMaps dst s_i d_i))) st h

/-- The whole combined walk preserves the rename invariant. -/
theorem walkNode_preservesRenameInv (dst : PyFix.Arena) (fuel : Nat) :
    ∀ s_i, PyFix.PreservesRenameInv (fun st => PyFix.walkNode dst fuel st s_i) := by
  induction fuel with
  | zero => exact fun s_i st h => h
  | succ fuel ih =>
    intro s_i st h
    exact (preservesRenameInv_foldl (fun st c => PyFix.walkNode dst fuel st c) ih
        (PyFix.childrenOf (PyFix.processUpdateAlign dst st s_i).src s_i))
      (PyFix.processUpdateAlign dst st s_i)
      (processUpdateAlign_preservesRenameInv dst s_i st h)

/-- The INSERT phase never touches the variable maps. -/
theorem insertPhase_keepsVarMaps (dst : PyFix.Arena) (droot : String) :
    PyFix.KeepsVarMaps (fun st => PyFix.insertPhase dst droot st) := by
  intro st
  exact (keepsVarMaps_foldl _ (fun d_i => insertStepFor_keepsVarMaps dst d_i) _) st

/-- The MOVE phase never touches the variable maps. -/
theorem movePhase_keepsVarMaps (dst : PyFix.Arena) (droot : String) :
    PyFix.KeepsVarMaps (fun st => PyFix.movePhase dst droot st) := by
  intro st
  exact (keepsVarMaps_foldl _ (fun d_i => moveStepFor_keepsVarMaps dst d_i) _) st

/-- The DELETE phase never touches the variable maps. -/
theorem deletePhase_keepsVarMaps (sroot : String) :
    PyFix.KeepsVarMaps (fun st => PyFix.deletePhase sroot st) := by
  intro st
  exact (keepsVarMaps_foldl _ (fun s_i => deleteStepFor_keepsVarMaps s_i)
    (PyFix.postorderAux st.src (st.src.length + 1) sroot)) st

/-- C4 amended: the rename maps are maintained in lock-step, but two source
identifiers renamed to the same destination identifier make the value of the
dest→source entry point back to only the latest of them. What always holds
after `generate_edit_script` is: every `(s, d)` in `renames_source_to_dest`
has `d` present as a key of the dest→source map, and at most one rename
entry exists per source identifier. -/
theorem C4_amended_rename_lock_step (source_tree dest_tree : PyFix.Arena)
    (sroot droot : String) (m : List (String × String)) :
    PyFix.RenameLockStep
        (PyFix.runPhases source_tree dest_tree sroot droot m).var_s2d
        (PyFix.runPhases source_tree dest_tree sroot droot m).var_d2s ∧
      (((PyFix.runPhases source_tree dest_tree sroot droot m).var_s2d).map
        Prod.fst).Nodup := by
  exact (preservesRenameInv_comp _ _
    (preservesRenameInv_comp _ _
      (preservesRenameInv_comp _ _
        (fun st h => walkNode_preservesRenameInv dest_tree (source_tree.length + 1)
          sroot st h)
        (preservesRenameInv_of_keeps _ (insertPhase_keepsVarMaps dest_tree droot)))
      (preservesRenameInv_of_keeps _ (movePhase_keepsVarMaps dest_tree droot)))
    (preservesRenameInv_of_keeps _ (deletePhase_keepsVarMaps sroot))) _
    ⟨fun p hp => absurd hp (List.not_mem_nil p), List.nodup_nil⟩

/-- Witness for `C5_amended_rename_verdict` at a concrete `Name`/`Name` pair
in load context with empty rename maps. -/
theorem C5_amended_rename_verdict_witness :
    ((PyFix.mkNameNode "Name:x" "x" "Load" "r").kind = "Name" ∧
      (PyFix.mkNameNode "Name:y" "y" "Load" "R").kind = "Name" ∧
      ¬((PyFix.mkNameNode "Name:x" "x" "Load" "r").ctx = some "Store" ∧
        (PyFix.mkNameNode "Name:y" "y" "Load" "R").ctx = some "Store")) ∧
    ((PyFix.is_update_variable_rename [] [] (PyFix.mkNameNode "Name:x" "x" "Load" "r")
        (PyFix.mkNameNode "Name:y" "y" "Load" "R")).2.1 = [] ∧
      (PyFix.is_update_variable_rename [] [] (PyFix.mkNameNode "Name:x" "x" "Load" "r")
        (PyFix.mkNameNode "Name:y" "y" "Load" "R")).2.2 = []) :=
  ⟨by decide,
    (C5_amended_rename_verdict [] [] (PyFix.mkNameNode "Name:x" "x" "Load" "r")
      (PyFix.mkNameNode "Name:y" "y" "Load" "R")).2 (by decide)⟩
